import Mathlib

/-!
# less-fat-visualizer: the asynchronous transformation pipeline of `server.js`

A shallow embedding of `src/server.js`: the candidate-model list, the provider
gateway loop, the result extractor (`extractFromMessageContent`, `deepFindImage`
and the probe sequence), the three in-memory maps (`jobs`, `images`,
`cleanupTimers`) with the route handlers that touch them, and
`processTransformation` cut into the atomic segments that run between two
suspension points.

Conventions of the embedding.

* JavaScript strings are Lean strings; the regular expressions of the source are
  written out as matchers over `List Char`.  A JavaScript string is a sequence of
  UTF-16 code units and a pattern position consumes one code unit; a character
  outside the Basic Multilingual Plane is two code units.  The literals and
  classes of the source's patterns are ASCII, white space or their complements,
  for which matching by character and matching by code unit agree; the one `.`
  of the source stands between two literals and accepts one code unit, that is
  a character of the Basic Multilingual Plane (`Atom.accepts`; the agreement
  with matching on code units is `searchUnits_utf16Units`).
* A parsed JSON document is a `JVal`.  The code never computes with numbers, it
  only tests them for truthiness, so a number is an integer (`0` is falsy).
  Object fields are kept in `Object.keys` order and their keys are distinct,
  as `JSON.parse` produces them.
* `undefined` is `none` of an `Option`.
* Built-ins whose result the code merely passes on (`JSON.parse`, the string
  conversion of a non-string value inside a template literal) are fields of
  `Platform`; `fetch` is a function of the request.
* Dates (`createdAt`, `completedAt`, `uploadedAt`) and the log file are not
  modelled: `log` swallows its own errors and writes nothing but the log.
-/

namespace LessFat

/-! ## Text -/

/-- White space as `String.prototype.trim` and the class `\s` see it: the
ECMAScript WhiteSpace and LineTerminator code points. -/
def isJsSpace (c : Char) : Bool :=
  let n := c.toNat
  n == 0x09 || n == 0x0A || n == 0x0B || n == 0x0C || n == 0x0D || n == 0x20 ||
  n == 0xA0 || n == 0x1680 || (0x2000 ≤ n && n ≤ 0x200A) || n == 0x2028 ||
  n == 0x2029 || n == 0x202F || n == 0x205F || n == 0x3000 || n == 0xFEFF

/-- Line terminators, the only characters `.` does not match. -/
def isLineTerminator (c : Char) : Bool :=
  let n := c.toNat
  n == 0x0A || n == 0x0D || n == 0x2028 || n == 0x2029

/-- A character of the Basic Multilingual Plane: one UTF-16 code unit.  Any other
character is a surrogate pair, two code units. -/
def isBmp (c : Char) : Bool := c.toNat < 0x10000

/-- The number of UTF-16 code units of a character. -/
def unitLength (c : Char) : Nat := if isBmp c then 1 else 2

/-- The longest beginning of a text that fits in `n` UTF-16 code units.  The call
`txt.slice(0, n)` cuts at code unit `n`; when the cut falls inside a surrogate
pair it keeps the lone high surrogate, which a Lean string cannot hold and which
is left out here. -/
def takeUnits : Nat → List Char → List Char
  | _, [] => []
  | n, c :: t => if unitLength c ≤ n then c :: takeUnits (n - unitLength c) t else []

/-- Leading white space removed. -/
def trimStart (l : List Char) : List Char := l.dropWhile isJsSpace

/-- Trailing white space removed. -/
def trimEnd (l : List Char) : List Char := (l.reverse.dropWhile isJsSpace).reverse

/-- The method `String.prototype.trim`. -/
def jsTrim (s : String) : String := ⟨trimEnd (trimStart s.data)⟩

/-- One position of a fixed-length pattern: a literal, a literal under the `i`
flag, or `.`. -/
inductive Atom where
  | lit (c : Char)
  | ci (c : Char)
  | dot
  deriving DecidableEq, Repr

/-- Whether one pattern position accepts a character.  Under the `i` flag a
pattern character accepts exactly its two ASCII cases.  The position `.`
consumes one UTF-16 code unit that is not a line terminator: between two
literals that is a character of the Basic Multilingual Plane, since of a
surrogate pair it would take the first half and leave the second to the literal
that follows. -/
def Atom.accepts : Atom → Char → Bool
  | .lit c, x => x == c
  | .ci c, x => x.toLower == c.toLower
  | .dot, x => isBmp x && !isLineTerminator x

/-- The pattern accepts the beginning of the text. -/
def matchHere : List Atom → List Char → Bool
  | [], _ => true
  | _ :: _, [] => false
  | a :: p, x :: t => a.accepts x && matchHere p t

/-- The test `RegExp.prototype.test` of a fixed-length pattern: it matches at some
position of the text. -/
def searchFixed (p : List Atom) : List Char → Bool
  | [] => matchHere p []
  | x :: t => matchHere p (x :: t) || searchFixed p t

/-- A UTF-16 code unit of a well-formed string: a character of the Basic
Multilingual Plane, or one half of a surrogate pair. -/
inductive CodeUnit where
  | bmp (c : Char)
  | high (n : Nat)
  | low (n : Nat)

/-- The code units of a text. -/
def utf16Units : List Char → List CodeUnit
  | [] => []
  | c :: t =>
    if isBmp c then CodeUnit.bmp c :: utf16Units t
    else
      CodeUnit.high (0xD800 + (c.toNat - 0x10000) / 0x400) ::
        CodeUnit.low (0xDC00 + (c.toNat - 0x10000) % 0x400) :: utf16Units t

/-- Whether one pattern position accepts a code unit, as the regular expression
engine tests it: a literal never accepts a surrogate half, `.` accepts both
halves. -/
def Atom.acceptsUnit : Atom → CodeUnit → Bool
  | .lit c, .bmp x => x == c
  | .ci c, .bmp x => x.toLower == c.toLower
  | .dot, .bmp x => !isLineTerminator x
  | .dot, .high _ => true
  | .dot, .low _ => true
  | _, _ => false

/-- The pattern accepts the beginning of a sequence of code units. -/
def matchUnitsHere : List Atom → List CodeUnit → Bool
  | [], _ => true
  | _ :: _, [] => false
  | a :: p, u :: t => a.acceptsUnit u && matchUnitsHere p t

/-- The pattern matches at some code unit of the sequence. -/
def searchUnits (p : List Atom) : List CodeUnit → Bool
  | [] => matchUnitsHere p []
  | u :: t => matchUnitsHere p (u :: t) || searchUnits p t

/-- A literal position whose character is one code unit. -/
def Atom.isLiteral : Atom → Bool
  | .lit c => isBmp c
  | .ci c => isBmp c && isBmp c.toLower
  | .dot => false

/-- Every position of the pattern is a literal or a `.` followed by a literal. -/
def dotsGuarded : List Atom → Bool
  | [] => true
  | .dot :: rest =>
    (match rest with
      | a :: _ => a.isLiteral
      | [] => false) && dotsGuarded rest
  | a :: rest => a.isLiteral && dotsGuarded rest

/-- The pattern starts with a literal. -/
def startsWithLiteral : List Atom → Bool
  | a :: _ => a.isLiteral
  | [] => false

/-- The text with the literal removed from its front, when it starts with it. -/
def dropLit (p : List Atom) : List Char → Option (List Char)
  | t => if matchHere p t then some (t.drop p.length) else none

/-- Leftmost match of an anchored matcher: the first position of the text at
which it succeeds, as `String.prototype.match` searches. -/
def firstMatch (f : List Char → Option (List Char)) : List Char → Option (List Char)
  | [] => f []
  | x :: t =>
    match f (x :: t) with
    | some m => some m
    | none => firstMatch f t

/-- The pattern `/gemini-flash-1.5-8b/i`; its `.` is a wildcard. -/
def invalidModelPattern : List Atom :=
  ("gemini-flash-1".toList.map Atom.ci) ++ [Atom.dot] ++ ("5-8b".toList.map Atom.ci)

/-- The test `/gemini-flash-1.5-8b/i.test(m)`. -/
def isInvalidModel (m : String) : Bool := searchFixed invalidModelPattern m.data

/-- The test `/application\/json/i.test(ct)`. -/
def isJsonContentType (ct : String) : Bool :=
  searchFixed ("application/json".toList.map Atom.ci) ct.data

/-- The test `/No endpoints found/i.test(txt)`. -/
def hasNoEndpointsMarker (txt : String) : Bool :=
  searchFixed ("No endpoints found".toList.map Atom.ci) txt.data

/-- The test `/^image\//.test(mime)`. -/
def isImageMime (mime : String) : Bool := matchHere ("image/".toList.map Atom.lit) mime.data

/-- The test `/^https?:\/\//i.test(u)`. -/
def startsWithHttp (u : String) : Bool :=
  match dropLit ("http".toList.map Atom.ci) u.data with
  | none => false
  | some r =>
    match dropLit [Atom.ci 's'] r with
    | some r2 => matchHere ("://".toList.map Atom.lit) r2
    | none => matchHere ("://".toList.map Atom.lit) r

/-- Anchored `https?:\/\/` under the `i` flag: the rest of the text after the
scheme.  The optional `s` is taken when present; leaving it out cannot match,
since `:` would have to match that `s`. -/
def dropScheme (t : List Char) : Option (List Char) :=
  match dropLit ("http".toList.map Atom.ci) t with
  | none => none
  | some r =>
    match dropLit [Atom.ci 's'] r with
    | some r2 => dropLit ("://".toList.map Atom.lit) r2
    | none => dropLit ("://".toList.map Atom.lit) r

/-- The test `/https?:\/\//i.test(u)`: the scheme occurs somewhere. -/
def containsHttp : List Char → Bool
  | [] => false
  | x :: t => (dropScheme (x :: t)).isSome || containsHttp t

/-- Anchored `\.(e1|e2|...)` under the `i` flag: the matched text, the first
alternative that fits winning. -/
def extHere (exts : List String) : List Char → Option (List Char)
  | '.' :: r =>
    (exts.find? (fun e => matchHere (e.toList.map Atom.ci) r)).map
      (fun e => '.' :: r.take e.length)
  | _ => none

/-- Anchored `[^\s]+\.(e1|e2|...)`: the greedy run gives back characters until an
extension follows, so the longest run that is followed by one wins. -/
def runThenExt (exts : List String) : List Char → Option (List Char)
  | [] => none
  | x :: t =>
    if isJsSpace x then none
    else
      match runThenExt exts t with
      | some m => some (x :: m)
      | none => (extHere exts t).map (fun e => x :: e)

/-- Anchored `https?:\/\/[^\s]+\.(e1|e2|...)` under the `i` flag. -/
def urlHere (exts : List String) (t : List Char) : Option (List Char) :=
  match dropScheme t with
  | none => none
  | some r => (runThenExt exts r).map (fun m => t.take (t.length - r.length) ++ m)

/-- The match `s.match(/https?:\/\/[^\s]+\.(jpg|jpeg|png|webp)/i)` of
`extractFromMessageContent`; the result is `m[0]`. -/
def urlMatchMsg (s : String) : Option String :=
  (firstMatch (urlHere ["jpg", "jpeg", "png", "webp"]) s.data).map String.mk

/-- The match `s.match(/https?:\/\/[^\s]+\.(png|jpg|jpeg|webp|gif)/i)` of
`deepFindImage`. -/
def urlMatchDeep (s : String) : Option String :=
  (firstMatch (urlHere ["png", "jpg", "jpeg", "webp", "gif"]) s.data).map String.mk

/-- The class `[A-Za-z0-9+/=]`. -/
def isBase64Char (c : Char) : Bool :=
  c.isAlphanum || c == '+' || c == '/' || c == '='

/-- Anchored `data:image\/[^;]+;base64,[A-Za-z0-9+/=]+`.  The run `[^;]+` must stop
at the first `;`, and the last run is as long as it can be. -/
def dataUrlHere (t : List Char) : Option (List Char) :=
  match dropLit ("data:image/".toList.map Atom.lit) t with
  | none => none
  | some r =>
    let mime := r.takeWhile (fun c => c != ';')
    match dropLit (";base64,".toList.map Atom.lit) (r.dropWhile (fun c => c != ';')) with
    | none => none
    | some r2 =>
      let b := r2.takeWhile isBase64Char
      if mime.isEmpty || b.isEmpty then none
      else some ("data:image/".toList ++ mime ++ ";base64,".toList ++ b)

/-- The match `s.match(/data:image\/[^;]+;base64,[A-Za-z0-9+/=]+/)`. -/
def dataUrlMatch (s : String) : Option String :=
  (firstMatch dataUrlHere s.data).map String.mk

/-- The test `/\.(png|jpg|jpeg|webp|gif)(\?|$)/i` used on `node.url`. -/
def hasImageExtension : List Char → Bool
  | [] => false
  | x :: t =>
    (match extHere ["png", "jpg", "jpeg", "webp", "gif"] (x :: t) with
      | some m =>
        (match (x :: t).drop m.length with
          | [] => true
          | c :: _ => c == '?')
      | none => false) || hasImageExtension t

/-- The call `s.startsWith(p)`. -/
def jsStartsWith (s p : String) : Bool := matchHere (p.toList.map Atom.lit) s.data

/-- The call `s.includes(p)`. -/
def jsIncludes (s p : String) : Bool := searchFixed (p.toList.map Atom.lit) s.data

/-! ## JSON values -/

/-- The value `JSON.parse` returns. -/
inductive JVal where
  | null : JVal
  | bool (b : Bool) : JVal
  | num (n : Int) : JVal
  | str (s : String) : JVal
  | arr (xs : List JVal) : JVal
  | obj (kvs : List (String × JVal)) : JVal

instance : Inhabited JVal := ⟨JVal.null⟩

/-- Truthiness, as `!v`, `v && ...` and `if (v)` test it. -/
def JVal.truthy : JVal → Bool
  | .null => false
  | .bool b => b
  | .num n => n != 0
  | .str s => s != ""
  | .arr _ => true
  | .obj _ => true

/-- Truthiness of a value that may be `undefined`. -/
def truthy? : Option JVal → Bool
  | none => false
  | some v => v.truthy

/-- Property read `v.k` for a name that no prototype defines (all the names the
code reads are such): an own field of an object, `undefined` on anything else. -/
def JVal.get (v : JVal) (k : String) : Option JVal :=
  match v with
  | .obj kvs => kvs.lookup k
  | _ => none

/-- Property read through a value that may be `undefined`; the code guards every
such read so that it never reads a property of `null` or `undefined`. -/
def get? (v : Option JVal) (k : String) : Option JVal :=
  match v with
  | some w => w.get k
  | none => none

/-- Index read `v[0]`: the first element of an array, the field `"0"` of an
object, the first character of a string (in the source its first code unit; the
code only tests the result for truthiness and reads a field of it). -/
def JVal.at0 (v : JVal) : Option JVal :=
  match v with
  | .arr xs => xs.head?
  | .obj kvs => kvs.lookup "0"
  | .str s =>
    match s.data with
    | [] => none
    | c :: _ => some (.str ⟨[c]⟩)
  | _ => none

/-- The string behind `typeof v === 'string'`. -/
def asString? : Option JVal → Option String
  | some (.str s) => some s
  | _ => none

/-- Built-ins whose results the code only passes on. -/
structure Platform where
  /-- The call `JSON.parse(s)`; `none` when it throws. -/
  jsonParse : String → Option JVal
  /-- String conversion of a truthy value that is not a string.  It is taken to
  succeed: the conversion throws only for a value that holds an object with a
  field of its own named `toString`, which is left out. -/
  toStr : JVal → String

/-- String conversion of a value, as a regular expression test and a template
literal perform it. -/
def Platform.stringOf (P : Platform) : JVal → String
  | .str s => s
  | v => P.toStr v

/-! ## Candidate models (lines 18-21 and 268-280) -/

/-- The default model identifier. -/
def defaultModel : String := "google/gemini-2.5-flash-image-preview"

/-- The fixed fallback identifiers, in the order of the array literal. -/
def fallbackModels : List String :=
  ["google/gemini-2.5-flash-image-preview", "google/gemini-2.5-flash",
   "google/gemini-2.5-pro", "google/gemini-flash-1.5"]

/-- The expression `a || b` on a string that may be absent. -/
def orElse (a : Option String) (b : String) : String :=
  match a with
  | some s => if s != "" then s else b
  | none => b

/-- The constant `RAW_OPENROUTER_MODEL`, from `process.env.OPENROUTER_MODEL`. -/
def RAW_OPENROUTER_MODEL (envModel : Option String) : String :=
  orElse envModel defaultModel

/-- The constant `OPENROUTER_MODEL`: the known-invalid identifier is remapped. -/
def OPENROUTER_MODEL (envModel : Option String) : String :=
  if isInvalidModel (RAW_OPENROUTER_MODEL envModel) then defaultModel
  else RAW_OPENROUTER_MODEL envModel

/-- The arrow function `sanitize = (m) => (m && m.trim()) || ''`. -/
def sanitize (m : String) : String :=
  if m != "" then jsTrim m else ""

/-- The filter `(m, idx, arr) => arr.indexOf(m) === idx`. -/
def keepFirstOccurrences (arr : List String) : List String :=
  (arr.enum.filter (fun p => arr.indexOf p.2 == p.1)).map Prod.snd

/-- The array `candidateModels` of `processTransformation`. -/
def candidateModels (envModel : Option String) : List String :=
  let envM := sanitize (orElse envModel "")
  let listed :=
    [sanitize (OPENROUTER_MODEL envModel), sanitize envM,
     "google/gemini-2.5-flash-image-preview", "google/gemini-2.5-flash",
     "google/gemini-2.5-pro", "google/gemini-flash-1.5"]
  ((keepFirstOccurrences (listed.filter (fun m => m != ""))).filter
    (fun m => !isInvalidModel m))

/-! ## Provider gateway (lines 282-358) -/

/-- What the code reads of a `fetch` response. -/
structure HttpResponse where
  ok : Bool
  status : Nat
  /-- The header `content-type`; `none` when `headers.get` returns `null`. -/
  contentType : Option String
  /-- The body as `response.text()` resolves to; `none` when it rejects. -/
  text : Option String
  /-- The body as `response.json()` resolves to, or the message it rejects with. -/
  json : Except String JVal

/-- The two request shapes: `/api/v1/responses` and `/api/v1/chat/completions`. -/
inductive Shape where
  | responses
  | chat
  deriving DecidableEq, Repr

/-- The provider: what `fetch` gives for a model and a request shape, or the
text `e.message || String(e)` of the error it throws. -/
abbrev Provider := String → Shape → Except String HttpResponse

/-- The condition `!response.ok || !/application\/json/i.test(ct)`. -/
def HttpResponse.unusable (r : HttpResponse) : Bool :=
  !r.ok || !isJsonContentType (orElse r.contentType "")

/-- The value `response.status === 404 || /No endpoints found/i.test(txt)`. -/
def HttpResponse.isNotFound (r : HttpResponse) : Bool :=
  r.status == 404 || hasNoEndpointsMarker (r.text.getD "")

/-- The text `status=... ct=... body=...` stored in `lastErrorText`; the body is
cut by `txt.slice(0,200)`, at 200 code units. -/
def HttpResponse.errorText (r : HttpResponse) : String :=
  "status=" ++ toString r.status ++ " ct=" ++ orElse r.contentType "" ++ " body=" ++
    String.mk (takeUnits 200 (r.text.getD "").data)

/-- The state one loop iteration leaves: the requests it issued, the new
`lastErrorText`, and the payload when the iteration ends in `break`. -/
structure Attempt where
  requests : List (String × Shape)
  lastErrorText : String
  data : Option JVal

/-- The tail of an iteration, `data = await response.json()`: a rejection lands
in the `catch` of the iteration. -/
def finishAttempt (reqs : List (String × Shape)) (lastErr : String) (r : HttpResponse) :
    Attempt :=
  match r.json with
  | .ok d => { requests := reqs, lastErrorText := lastErr, data := some d }
  | .error e => { requests := reqs, lastErrorText := e, data := none }

/-- One iteration of the loop `for (const modelName of candidateModels)`. -/
def tryModel (P : Provider) (m : String) (lastErr : String) : Attempt :=
  match P m Shape.responses with
  | .error e => { requests := [(m, Shape.responses)], lastErrorText := e, data := none }
  | .ok r1 =>
    if r1.unusable then
      if !r1.isNotFound then
        match P m Shape.chat with
        | .error e =>
          { requests := [(m, Shape.responses), (m, Shape.chat)], lastErrorText := e,
            data := none }
        | .ok r2 =>
          if r2.unusable then
            { requests := [(m, Shape.responses), (m, Shape.chat)],
              lastErrorText := r2.errorText, data := none }
          else finishAttempt [(m, Shape.responses), (m, Shape.chat)] r1.errorText r2
      else { requests := [(m, Shape.responses)], lastErrorText := r1.errorText, data := none }
    else finishAttempt [(m, Shape.responses)] lastErr r1

/-- The variables the loop leaves behind, with the requests it issued in order.
`data` starts as `null` and `usedModel` as `null`. -/
structure LoopResult where
  data : JVal
  usedModel : Option String
  lastErrorText : String
  requests : List (String × Shape)

/-- The loop over the candidates: it stops at the first iteration that reaches
`break`. -/
def gatewayLoop (P : Provider) : List String → String → LoopResult
  | [], lastErr =>
    { data := JVal.null, usedModel := none, lastErrorText := lastErr, requests := [] }
  | m :: ms, lastErr =>
    match tryModel P m lastErr with
    | { requests := reqs, lastErrorText := e, data := some d } =>
      { data := d, usedModel := some m, lastErrorText := e, requests := reqs }
    | { requests := reqs, lastErrorText := e, data := none } =>
      let r := gatewayLoop P ms e
      { r with requests := reqs ++ r.requests }

/-- The gateway as a whole: the loop, then `if (!data) throw new Error(...)`. -/
def gateway (P : Provider) (candidates : List String) : Except String JVal :=
  let r := gatewayLoop P candidates ""
  if r.data.truthy then .ok r.data
  else .error ("OpenRouter API error: " ++
    (if r.lastErrorText != "" then r.lastErrorText else "All model attempts failed"))

/-! ## Result extractor (lines 380-481) -/

/-- The tag of a `deepFindImage` result. -/
inductive Kind where
  | dataUrl
  | url
  deriving DecidableEq, Repr

/-- The object `{ kind, value }` that `deepFindImage` returns. -/
structure Found where
  kind : Kind
  value : String
  deriving DecidableEq, Repr

/-- The expression `a || b` on values. -/
def orValue (a b : Option JVal) : Option JVal :=
  if truthy? a then a else b

/-- A non-empty string, as `v && typeof v === 'string'` accepts it. -/
def nonEmptyString? (v : Option JVal) : Option String :=
  match asString? v with
  | some s => if s != "" then some s else none
  | none => none

/-- The body of the loop over the parts of an array content (lines 393-409):
`some v` when the iteration returns `v`, `none` when it falls through. -/
def extractFromPart (part : JVal) : Option JVal :=
  if !part.truthy then none
  else
    match nonEmptyString? (part.get "image_url") with
    | some s => some (JVal.str s)
    | none =>
      match (if truthy? (part.get "image_url") && truthy? (get? (part.get "image_url") "url")
             then get? (part.get "image_url") "url" else none) with
      | some v => some v
      | none =>
        match nonEmptyString? (part.get "url") with
        | some s => some (JVal.str s)
        | none =>
          match (match nonEmptyString? (part.get "type"), asString? (part.get "text") with
                 | some ty, some tx => if jsIncludes ty "image" then urlMatchMsg tx else none
                 | _, _ => none) with
          | some u => some (JVal.str u)
          | none =>
            match asString? (part.get "text") with
            | some tx =>
              (match urlMatchMsg tx with
                | some u => some (JVal.str u)
                | none => (dataUrlMatch tx).map JVal.str)
            | none => none

/-- The function `extractFromMessageContent`; `none` is its `null`. -/
def extractFromMessageContent (msgContent : Option JVal) : Option JVal :=
  match msgContent with
  | none => none
  | some c =>
    if !c.truthy then none
    else
      match c with
      | .str s =>
        (match urlMatchMsg s with
          | some u => some (JVal.str u)
          | none => (dataUrlMatch s).map JVal.str)
      | .arr parts => parts.findSome? extractFromPart
      | _ => none

/-- The function `toDataUrlFromBase64`. -/
def toDataUrlFromBase64 (P : Platform) (b64 : String) (mime : Option JVal) : String :=
  let mt :=
    match mime with
    | some v => if v.truthy && isImageMime (P.stringOf v) then P.stringOf v else "image/png"
    | none => "image/png"
  "data:" ++ mt ++ ";base64," ++ b64

/-- The field tests of the object case of `deepFindImage` (lines 441-451), before
it descends into the fields. -/
def objectFields (P : Platform) (node : JVal) : Option Found :=
  match asString? (node.get "image_url") with
  | some u => some ⟨Kind.url, u⟩
  | none =>
    match (if truthy? (node.get "image_url") then asString? (get? (node.get "image_url") "url")
           else none) with
    | some u => some ⟨Kind.url, u⟩
    | none =>
      match (match asString? (node.get "url") with
             | some u => if containsHttp u.data && hasImageExtension u.data then some u else none
             | none => none) with
      | some u => some ⟨Kind.url, u⟩
      | none =>
        match asString? (node.get "image_base64") with
        | some b =>
          some ⟨Kind.dataUrl,
            toDataUrlFromBase64 P b (orValue (node.get "mime_type") (node.get "mimetype"))⟩
        | none =>
          match asString? (node.get "b64_json") with
          | some b =>
            some ⟨Kind.dataUrl,
              toDataUrlFromBase64 P b (orValue (node.get "mime_type") (node.get "mimetype"))⟩
          | none =>
            match (if truthy? (node.get "inline_data")
                   then asString? (get? (node.get "inline_data") "data") else none) with
            | some b =>
              some ⟨Kind.dataUrl,
                toDataUrlFromBase64 P b (get? (node.get "inline_data") "mime_type")⟩
            | none => none

/-- The function `deepFindImage(node, depth)`, by recursion on the number of
levels the guard `depth > 6` still lets through: a call at `depth` is made with
`fuel = 7 - depth`, every recursive call is at `depth + 1`, and with no fuel left
the depth is above 6, where the code returns `null`. -/
def deepFindImageAux (P : Platform) : Nat → JVal → Nat → Option Found
  | 0, _, _ => none
  | fuel + 1, node, depth =>
    if !node.truthy || depth > 6 then none
    else
      match node with
      | .str s =>
        (match dataUrlMatch s with
          | some m => some ⟨Kind.dataUrl, m⟩
          | none =>
            match urlMatchDeep s with
            | some m => some ⟨Kind.url, m⟩
            | none =>
              if jsStartsWith s "\x7b" || jsStartsWith s "[" then
                match P.jsonParse s with
                | some v => deepFindImageAux P fuel v (depth + 1)
                | none => none
              else none)
      | .arr xs => xs.findSome? (fun item => deepFindImageAux P fuel item (depth + 1))
      | .obj kvs =>
        (match objectFields P (JVal.obj kvs) with
          | some f => some f
          | none => kvs.findSome? (fun kv => deepFindImageAux P fuel kv.2 (depth + 1)))
      | _ => none

/-- The function `deepFindImage`; `depth` defaults to 0 in the source. -/
def deepFindImage (P : Platform) (node : JVal) (depth : Nat) : Option Found :=
  deepFindImageAux P (7 - depth) node depth

/-- The statements `const found = deepFindImage(x); if (found) resultImageUrl =
found.value` on a value that may be `undefined`. -/
def deepValue (P : Platform) (x : Option JVal) : Option JVal :=
  match x with
  | none => none
  | some v => (deepFindImage P v 0).map (fun f => JVal.str f.value)

/-- The message of the first probe: `data.choices[0].message` when the guard
`data && data.choices && data.choices[0] && data.choices[0].message` holds. -/
def choicesMessage (data : JVal) : Option JVal :=
  if data.truthy && truthy? (data.get "choices") then
    match data.get "choices" with
    | some ch =>
      if truthy? ch.at0 && truthy? (get? ch.at0 "message") then get? ch.at0 "message" else none
    | none => none
  else none

/-- The content of the second probe: `data.output[0].content` when the guard
`Array.isArray(data.output) && data.output[0] && Array.isArray(data.output[0].content)`
holds. -/
def outputContent (data : JVal) : Option JVal :=
  match data.get "output" with
  | some (.arr out) =>
    if truthy? out.head? then
      match get? out.head? "content" with
      | some (.arr c) => some (.arr c)
      | _ => none
    else none
  | _ => none

/-- The probe of one content value (lines 463-467 and 471-475):
`extractFromMessageContent`, then `deepFindImage` from depth 0 when that found
nothing. -/
def probeContent (P : Platform) (content : Option JVal) : Option JVal :=
  match extractFromMessageContent content with
  | some v => some v
  | none => deepValue P content

/-- The first probe (lines 461-468): the value of `resultImageUrl` after it. -/
def probeChoices (P : Platform) (data : JVal) : Option JVal :=
  match choicesMessage data with
  | some msg => probeContent P (msg.get "content")
  | none => none

/-- The second probe (lines 470-476), entered when `resultImageUrl` is still
falsy: the value of `resultImageUrl` after it. -/
def probeOutput (P : Platform) (data : JVal) (r1 : Option JVal) : Option JVal :=
  if !truthy? r1 && data.truthy then
    match outputContent data with
    | some c => probeContent P (some c)
    | none => r1
  else r1

/-- The result extractor of `processTransformation` (lines 460-481): the final
value of `resultImageUrl`, `none` standing for `null`.  The last resort is the
deep scan of the whole payload. -/
def extractResult (P : Platform) (data : JVal) : Option JVal :=
  if !truthy? (probeOutput P data (probeChoices P data)) then
    match deepValue P (some data) with
    | some v => some v
    | none => probeOutput P data (probeChoices P data)
  else probeOutput P data (probeChoices P data)

/-! ## Payloads with one embedded image -/

/-- What the string case of `deepFindImage` finds in a string: the first data
URI, else the first image URL. -/
def stringFound (s : String) : Option Found :=
  match dataUrlMatch s with
  | some m => some ⟨Kind.dataUrl, m⟩
  | none => (urlMatchDeep s).map (fun m => ⟨Kind.url, m⟩)

/-- What the string case of `extractFromMessageContent` finds in a string: the
first image URL, else the first data URI. -/
def stringImageMsg (s : String) : Option String :=
  match urlMatchMsg s with
  | some u => some u
  | none => dataUrlMatch s

/-- The field names the extractor reads as image carriers. -/
def carrierKeys : List String :=
  ["image_url", "url", "image_base64", "b64_json", "inline_data"]

mutual
/-- A value in which the extractor finds no image: no string holds a data URI or
an image URL or looks like encoded JSON, and no object has a carrier field. -/
def inert : JVal → Bool
  | .null => true
  | .bool _ => true
  | .num _ => true
  | .str s =>
    (dataUrlMatch s).isNone && (urlMatchMsg s).isNone && (urlMatchDeep s).isNone &&
      !(jsStartsWith s "\x7b" || jsStartsWith s "[")
  | .arr xs => inertList xs
  | .obj kvs => inertFields kvs
/-- All elements are inert. -/
def inertList : List JVal → Bool
  | [] => true
  | x :: xs => inert x && inertList xs
/-- No field is a carrier field and all field values are inert. -/
def inertFields : List (String × JVal) → Bool
  | [] => true
  | (k, v) :: r => !carrierKeys.contains k && inert v && inertFields r
end

/-- One level of nesting around a value: an array element with its siblings, or
an object field with its siblings. -/
inductive Step where
  | index (before after : List JVal)
  | field (before : List (String × JVal)) (key : String) (after : List (String × JVal))

/-- The container a step puts around a value. -/
def Step.wrap : Step → JVal → JVal
  | .index before after, v => JVal.arr (before ++ v :: after)
  | .field before key after, v => JVal.obj (before ++ (key, v) :: after)

/-- The siblings of a step hold no image and its field name is not a carrier
field. -/
def Step.clean : Step → Bool
  | .index before after => inertList before && inertList after
  | .field before key after =>
    inertFields before && inertFields after && !carrierKeys.contains key

/-- The value nested under a path of steps; it sits at depth `path.length`, the
root being depth 0. -/
def nest : List Step → JVal → JVal
  | [], v => v
  | st :: path, v => st.wrap (nest path v)

/-- The path does not start at the top-level field `choices` or `output`, the two
fields the targeted probes read. -/
def notUnderProbe : List Step → Bool
  | Step.field _ key _ :: _ => key != "choices" && key != "output"
  | _ => true

/-- A value that may be absent and, when present, is inert. -/
def Dull (x : Option JVal) : Prop := ∀ w, x = some w → inert w = true

/-- A value that may be absent and, when present, is inert or a string. -/
def Quiet (x : Option JVal) : Prop := ∀ w, x = some w → inert w = true ∨ ∃ t, w = JVal.str t

/-! ## The in-memory stores (lines 45-48, 84-184, 547-588) -/

/-- The character of a 6-bit digit in the base64 alphabet. -/
def base64Digit (n : Nat) : Char :=
  "ABCDEFGHIJKLMNOPQRSTUVWXYZabcdefghijklmnopqrstuvwxyz0123456789+/".toList.getD n '='

/-- The call `buffer.toString('base64')` on the bytes of a buffer. -/
def toBase64 : List Nat → List Char
  | a :: b :: c :: rest =>
    let n := (a % 256) * 65536 + (b % 256) * 256 + c % 256
    base64Digit (n / 262144) :: base64Digit (n / 4096 % 64) :: base64Digit (n / 64 % 64) ::
      base64Digit (n % 64) :: toBase64 rest
  | [a, b] =>
    let n := (a % 256) * 65536 + (b % 256) * 256
    [base64Digit (n / 262144), base64Digit (n / 4096 % 64), base64Digit (n / 64 % 64), '=']
  | [a] =>
    let n := (a % 256) * 65536
    [base64Digit (n / 262144), base64Digit (n / 4096 % 64), '=', '=']
  | [] => []

/-- The template literal `data:${mimetype};base64,${buffer.toString('base64')}`. -/
def makeDataUrl (mimetype : String) (buffer : List Nat) : String :=
  "data:" ++ mimetype ++ ";base64," ++ String.mk (toBase64 buffer)

/-- The record `images.set` stores at upload; of the file's metadata the fields
the pipeline reads. -/
structure Image where
  id : String
  buffer : List Nat
  dataUrl : String
  mimetype : String
  deriving DecidableEq, Repr

/-- The job status strings. -/
inductive Status where
  | processing
  | completed
  | failed
  deriving DecidableEq, Repr

/-- The job record.  The request parameters `transformationType` and `amount`
are stored at creation and never read again; they are left out.  `progress` is
absent until the orchestrator first writes it. -/
structure Job where
  id : String
  imageId : String
  status : Status
  originalUrl : String
  resultUrl : Option String
  error : Option String
  progress : Option Nat
  deriving DecidableEq, Repr

/-- The call `m.get(k)` on a `Map` kept as a list of entries in insertion order. -/
def mget {α : Type} (m : List (String × α)) (k : String) : Option α := m.lookup k

/-- The call `m.has(k)`. -/
def mhas {α : Type} (m : List (String × α)) (k : String) : Bool := (m.lookup k).isSome

/-- The call `m.set(k, v)`: an existing key keeps its place, a new one goes last. -/
def mset {α : Type} (m : List (String × α)) (k : String) (v : α) : List (String × α) :=
  if mhas m k then m.map (fun p => if p.1 == k then (k, v) else p) else m ++ [(k, v)]

/-- The call `m.delete(k)`. -/
def mdelete {α : Type} (m : List (String × α)) (k : String) : List (String × α) :=
  m.filter (fun p => p.1 != k)

/-- The three process-wide maps.  A pending timer is the pair of identifiers its
callback closes over; the table maps the job id to the image id. -/
structure World where
  jobs : List (String × Job)
  images : List (String × Image)
  cleanupTimers : List (String × String)
  deriving DecidableEq, Repr

/-- The state at process start. -/
def World.empty : World := { jobs := [], images := [], cleanupTimers := [] }

/-- The record built at upload (lines 92-105). -/
def uploadedImage (imageId : String) (buffer : List Nat) (mimetype : String) : Image :=
  { id := imageId, buffer := buffer, dataUrl := makeDataUrl mimetype buffer,
    mimetype := mimetype }

/-- The handler of `POST /api/upload-photo` for a decoded file; `imageId` is the
value `generateId()` returned. -/
def uploadPhoto (w : World) (imageId : String) (buffer : List Nat) (mimetype : String) : World :=
  { w with images := mset w.images imageId (uploadedImage imageId buffer mimetype) }

/-- The job record `POST /api/transform` creates. -/
def newJob (jobId imageId originalUrl : String) : Job :=
  { id := jobId, imageId := imageId, status := Status.processing, originalUrl := originalUrl,
    resultUrl := none, error := none, progress := none }

/-- The function `scheduleCleanup(jobId, imageId)`. -/
def scheduleCleanup (w : World) (jobId imageId : String) : World :=
  if mhas w.cleanupTimers jobId then w
  else { w with cleanupTimers := mset w.cleanupTimers jobId imageId }

/-- The callback of the timer registered for `jobId`, run when the timer is still
pending (a cleared timer does not fire). -/
def fireTimer (w : World) (jobId : String) : World :=
  match mget w.cleanupTimers jobId with
  | some imageId =>
    { jobs := mdelete w.jobs jobId, images := mdelete w.images imageId,
      cleanupTimers := mdelete w.cleanupTimers jobId }
  | none => w

/-- The handler of `DELETE /api/job/:jobId`. -/
def deleteJob (w : World) (jobId : String) : World :=
  match mget w.jobs jobId with
  | some job =>
    { jobs := mdelete w.jobs jobId, images := mdelete w.images job.imageId,
      cleanupTimers := mdelete w.cleanupTimers jobId }
  | none => w

/-- The body of a 200 answer of `GET /api/job-status/:jobId`. -/
structure StatusReport where
  jobId : String
  status : Status
  originalUrl : String
  resultUrl : Option String
  error : Option String
  progress : Nat
  deriving DecidableEq, Repr

/-- The report built from a job record; `progress` is `job.progress || 0`. -/
def Job.report (job : Job) : StatusReport :=
  { jobId := job.id, status := job.status, originalUrl := job.originalUrl,
    resultUrl := job.resultUrl, error := job.error, progress := job.progress.getD 0 }

/-- The handler of `GET /api/job-status/:jobId`; `none` is the 404 answer. -/
def jobStatus (w : World) (jobId : String) : Option StatusReport :=
  (mget w.jobs jobId).map Job.report

/-! ## The orchestrator (lines 187-525) -/

/-- The writes of `processTransformation`. -/
inductive Eff where
  /-- The assignment `job.progress = n`. -/
  | setProgress (n : Nat)
  /-- The assignment `job.resultUrl = u`. -/
  | setResultUrl (u : String)
  /-- The assignment `job.resultUrl = job.originalUrl`. -/
  | setResultUrlOriginal
  /-- The assignment `job.status = s`. -/
  | setStatus (s : Status)
  /-- The assignment `job.error = msg`. -/
  | setError (msg : String)
  /-- The call `jobs.set(jobId, job)`. -/
  | jobsSet
  /-- The call `scheduleCleanup(jobId, job.imageId)`. -/
  | scheduleCleanup
  deriving DecidableEq, Repr

/-- The effect of a write on the job object. -/
def Eff.onJob : Eff → Job → Job
  | .setProgress n, j => { j with progress := some n }
  | .setResultUrl u, j => { j with resultUrl := some u }
  | .setResultUrlOriginal, j => { j with resultUrl := some j.originalUrl }
  | .setStatus s, j => { j with status := s }
  | .setError msg, j => { j with error := some msg }
  | .jobsSet, j => j
  | .scheduleCleanup, j => j

/-- What the code reads of the response to `fetch(resultImageUrl)`. -/
structure RemoteResponse where
  ok : Bool
  status : Nat
  contentType : Option String
  /-- The bytes `arrayBuffer()` resolves to, or the message it rejects with. -/
  body : Except String (List Nat)

/-- The configuration and the outside world of one run. -/
structure Env where
  /-- The constant `USE_MOCK`. -/
  useMock : Bool
  /-- The variable `process.env.OPENROUTER_API_KEY`. -/
  apiKey : Option String
  /-- The variable `process.env.OPENROUTER_MODEL`. -/
  envModel : Option String
  /-- The constant `ALLOW_FALLBACK`. -/
  allowFallback : Bool
  platform : Platform
  provider : Provider
  /-- The call `fetch(resultImageUrl)`, or the message of the error it throws. -/
  fetchUrl : String → Except String RemoteResponse

/-- A script: the atomic segments of a run in order.  A segment is the list of
writes between two suspension points (`await`); nothing else runs inside one.
Suspension points with no write between them count as one. -/
abbrev Script := List (List Eff)

/-- The writes continue the segment that is open at the head of what follows. -/
def joinSeg (pre : List Eff) : Script → Script
  | [] => [pre]
  | s :: rest => (pre ++ s) :: rest

/-- Lines 512-515: the terminal update of a completed job. -/
def completeEffs : List Eff :=
  [Eff.setStatus Status.completed, Eff.setProgress 100, Eff.jobsSet]

/-- Lines 521-523: the terminal update in the `catch` block. -/
def failEffs (msg : String) : List Eff :=
  [Eff.setStatus Status.failed, Eff.setError msg, Eff.jobsSet]

/-- Truthiness of `job.resultUrl`. -/
def Job.hasResult (j : Job) : Bool :=
  match j.resultUrl with
  | some u => u != ""
  | none => false

/-- Lines 501-524, entered in the middle of a segment with the job object in
state `job`: completion, the optional fallback to the original, or the throw
that the `catch` block turns into a failed job. -/
def fromFallbackCheck (env : Env) (job : Job) : Script :=
  if job.hasResult then [completeEffs, [Eff.scheduleCleanup]]
  else if env.allowFallback then
    [[], Eff.setResultUrlOriginal :: completeEffs, [Eff.scheduleCleanup]]
  else [[], failEffs "No image generated by AI"]

/-- Lines 495-498, after the `await log` of the inner `catch`: the fallback to
the original, then line 501 onwards. -/
def remoteFailed (env : Env) (job : Job) : Script :=
  [] :: joinSeg [Eff.setResultUrlOriginal]
    (fromFallbackCheck env (Eff.setResultUrlOriginal.onJob job))

/-- The content type `(r.headers.get('content-type') || 'image/png').split(';')[0]`. -/
def remoteContentType (r : RemoteResponse) : String :=
  String.mk ((orElse r.contentType "image/png").data.takeWhile (fun c => c != ';'))

/-- Lines 486-499: the remote result is fetched and re-encoded. -/
def fetchRemote (env : Env) (job : Job) (u : String) : Script :=
  match env.fetchUrl u with
  | .error _ => remoteFailed env job
  | .ok r =>
    if !r.ok then remoteFailed env job
    else
      match r.body with
      | .error _ => remoteFailed env job
      | .ok bytes =>
        let v := "data:" ++ remoteContentType r ++ ";base64," ++ String.mk (toBase64 bytes)
        [] :: [Eff.setResultUrl v] :: fromFallbackCheck env ((Eff.setResultUrl v).onJob job)

/-- Lines 483-524, entered in the segment that wrote progress 70, with the value
of `resultImageUrl`.  A truthy value that is not a string has no `startsWith`;
the call throws a `TypeError` that the `catch` block receives. -/
def afterExtraction (env : Env) (job : Job) (result : Option JVal) : Script :=
  match result with
  | some (.str u) =>
    if u != "" && jsStartsWith u "data:image/" then
      joinSeg [Eff.setResultUrl u] (fromFallbackCheck env ((Eff.setResultUrl u).onJob job))
    else if u != "" && startsWithHttp u then fetchRemote env job u
    else fromFallbackCheck env job
  | some v =>
    if v.truthy then [[], failEffs "resultImageUrl.startsWith is not a function"]
    else fromFallbackCheck env job
  | none => fromFallbackCheck env job

/-- The message thrown at line 254. -/
def missingKeyMessage : String :=
  "OPENROUTER_API_KEY is not set. Set it in .env or use MOCK_AI=true for local testing."

/-- The function `processTransformation(jobId, image)` as the script of its run,
for the job object `job` that `jobs.get(jobId)` returned. -/
def processTransformation (env : Env) (image : Image) (job : Job) : Script :=
  let dataUrl := makeDataUrl image.mimetype image.buffer
  if env.useMock then
    [[Eff.setProgress 30, Eff.jobsSet], [Eff.setProgress 60, Eff.jobsSet],
     [Eff.setResultUrl dataUrl], completeEffs, [Eff.scheduleCleanup]]
  else if orElse env.apiKey "" == "" then
    [[Eff.setProgress 30, Eff.jobsSet], failEffs missingKeyMessage]
  else
    match gateway env.provider (candidateModels env.envModel) with
    | .error msg => [[Eff.setProgress 30, Eff.jobsSet], failEffs msg]
    | .ok data =>
      [Eff.setProgress 30, Eff.jobsSet] ::
        joinSeg [Eff.setProgress 70, Eff.jobsSet]
          (afterExtraction env ((Eff.setProgress 70).onJob job)
            (extractResult env.platform data))

/-- The job object after a segment. -/
def runSegment (seg : List Eff) (job : Job) : Job :=
  seg.foldl (fun j e => e.onJob j) job

/-- The states of the job object at the suspension points of a run and at its
end: what a status poll can observe after each orchestrator step. -/
def observe : Script → Job → List Job
  | [], _ => []
  | seg :: rest, job => runSegment seg job :: observe rest (runSegment seg job)

/-- A running `processTransformation`: its job id, the job object bound to
`const job`, and the segments still to run. -/
structure Task where
  jobId : String
  job : Job
  script : Script
  deriving DecidableEq, Repr

/-- A write to a field of the job object shows through the map whenever the map
still holds the object: the map stores a reference, and an entry under this job
id is never anything but this object. -/
def reflect (w : World) (jobId : String) (job : Job) : World :=
  if mhas w.jobs jobId then { w with jobs := mset w.jobs jobId job } else w

/-- One write of the task, on the job object and on the maps. -/
def applyEff (jobId : String) (s : Job × World) (e : Eff) : Job × World :=
  match e with
  | .jobsSet => (s.1, { s.2 with jobs := mset s.2.jobs jobId s.1 })
  | .scheduleCleanup => (s.1, scheduleCleanup s.2 jobId s.1.imageId)
  | e => (e.onJob s.1, reflect s.2 jobId (e.onJob s.1))

/-- One orchestrator step: the next segment runs to its suspension point. -/
def Task.step (w : World) (t : Task) : World × Task :=
  match t.script with
  | [] => (w, t)
  | seg :: rest =>
    let s := seg.foldl (applyEff t.jobId) (t.job, w)
    (s.2, { t with job := s.1, script := rest })

/-- The handler of `POST /api/transform` for an image id and the job id
`generateId()` returned: `none` is the 400 answer; otherwise the job is stored
and its task started.  The handler awaits a log write between the two; no other
request is taken to be served at that point, so that the task finds its job in
the map when it starts. -/
def transform (env : Env) (w : World) (imageId jobId : String) : Option (World × Task) :=
  if imageId == "" then none
  else
    match mget w.images imageId with
    | none => none
    | some image =>
      let job := newJob jobId imageId image.dataUrl
      some ({ w with jobs := mset w.jobs jobId job },
            { jobId := jobId, job := job, script := processTransformation env image job })

/-- What happens between two suspension points: the task runs its next segment,
or a request or a timer is served. -/
inductive Event where
  | taskStep
  | delete (jobId : String)
  | timer (jobId : String)
  deriving DecidableEq, Repr

/-- One event on the stores and on the task. -/
def Event.apply (e : Event) (s : World × Task) : World × Task :=
  match e with
  | .taskStep => s.2.step s.1
  | .delete jobId => (deleteJob s.1 jobId, s.2)
  | .timer jobId => (fireTimer s.1 jobId, s.2)

/-- A schedule of events, applied in order. -/
def runEvents (es : List Event) (s : World × Task) : World × Task :=
  es.foldl (fun st e => e.apply st) s

/-! ## The gateway contract in the words of the specification -/

/-- A request shape succeeds for a model: `fetch` returns, the response is an
HTTP success typed as JSON, and its body parses; the value is the payload. -/
def shapeSucceeds (P : Provider) (m : String) (sh : Shape) : Option JVal :=
  match P m sh with
  | .ok r =>
    if r.unusable then none
    else
      match r.json with
      | .ok d => some d
      | .error _ => none
  | .error _ => none

/-- A request shape fails as not found: the response is not a JSON success and
carries status 404 or the marker `No endpoints found`. -/
def shapeNotFound (P : Provider) (m : String) (sh : Shape) : Bool :=
  match P m sh with
  | .ok r => r.unusable && r.isNotFound
  | .error _ => false

/-- A request shape fails otherwise: the response is not a JSON success and is
not a not-found failure. -/
def shapeFailsOther (P : Provider) (m : String) (sh : Shape) : Bool :=
  match P m sh with
  | .ok r => r.unusable && !r.isNotFound
  | .error _ => false

/-- The payload a candidate yields: that of Shape A when it succeeds, that of
Shape B when Shape A fails with a failure other than not found and Shape B
succeeds. -/
def selectedPayload (P : Provider) (m : String) : Option JVal :=
  match shapeSucceeds P m Shape.responses with
  | some d => some d
  | none => if shapeFailsOther P m Shape.responses then shapeSucceeds P m Shape.chat else none

/-- The requests one candidate costs: Shape A, and Shape B after a failure of
Shape A other than not found. -/
def requestsFor (P : Provider) (m : String) : List (String × Shape) :=
  if shapeFailsOther P m Shape.responses then [(m, Shape.responses), (m, Shape.chat)]
  else [(m, Shape.responses)]

/-! ## Properties of a run -/

/-- What holds of the observable states of a run: a terminal status stays, the
reported progress never decreases and stays within 0..100, it is 100 exactly on a
completed job, a processing job that shows a result is completed with that
result by the next step, a failed job shows none, and the run ends terminal. -/
def TraceInvariants (trace : List Job) : Prop :=
  List.Pairwise (fun a b : Job => a.status ≠ Status.processing → b.status = a.status) trace ∧
  List.Pairwise (fun a b : Job => a.report.progress ≤ b.report.progress) trace ∧
  (∀ a ∈ trace, a.report.progress ≤ 100 ∧
    (a.report.progress = 100 ↔ a.status = Status.completed)) ∧
  List.Chain' (fun a b : Job => a.status = Status.processing → a.resultUrl ≠ none →
    b.status = Status.completed ∧ b.resultUrl = a.resultUrl) trace ∧
  (∀ a ∈ trace, a.status = Status.failed → a.resultUrl = none) ∧
  (∀ a, trace.getLast? = some a → a.status ≠ Status.processing)

/-- The map holds, under the task's job id, the task's job object or nothing. -/
def Coherent (s : World × Task) : Prop :=
  mget s.1.jobs s.2.jobId = none ∨ mget s.1.jobs s.2.jobId = some s.2.job

/-! ## Concrete configurations used in the examples -/

/-- A platform whose `JSON.parse` always throws. -/
def idlePlatform : Platform := { jsonParse := fun _ => none, toStr := fun _ => "" }

/-- Mock mode (`MOCK_AI=true`). -/
def mockEnv : Env :=
  { useMock := true, apiKey := none, envModel := none, allowFallback := false,
    platform := idlePlatform, provider := fun _ _ => .error "offline",
    fetchUrl := fun _ => .error "offline" }

/-- Real mode with `OPENROUTER_API_KEY` unset. -/
def noKeyEnv : Env := { mockEnv with useMock := false }

/-- The stores after one upload of the three bytes `Man` as `image/png`. -/
def demoWorld : World := uploadPhoto World.empty "img1" [77, 97, 110] "image/png"

/-- A JSON success with the given payload. -/
def jsonSuccess (d : JVal) : HttpResponse :=
  { ok := true, status := 200, contentType := some "application/json; charset=utf-8",
    text := some "", json := .ok d }

/-- A failure with the given status and body. -/
def httpFailure (status : Nat) (body : String) : HttpResponse :=
  { ok := false, status := status, contentType := some "text/plain", text := some body,
    json := .error "Unexpected token" }

/-- Five candidates: `m1` throws a network error, `m2` answers 500 on both
shapes, `m3` answers 404, `m4` answers 502 on Shape A and succeeds on Shape B,
`m5` would succeed on Shape A. -/
def demoProvider : Provider := fun m sh =>
  if m == "m1" then .error "ECONNRESET"
  else if m == "m2" then .ok (httpFailure 500 "internal error")
  else if m == "m3" then .ok (httpFailure 404 "No endpoints found for m3")
  else if m == "m4" then
    (match sh with
      | Shape.responses => .ok (httpFailure 502 "bad gateway")
      | Shape.chat => .ok (jsonSuccess (JVal.obj [("model", JVal.str "m4")])))
  else .ok (jsonSuccess (JVal.obj [("model", JVal.str m)]))

/-- A data URI of four base64 characters. -/
def tinyImage : String := "data:image/png;base64,AAAA"

/-- Five levels of nesting, with inert siblings. -/
def pathDepth5 : List Step :=
  [Step.field [("id", JVal.str "gen-1")] "result" [], Step.index [JVal.num 1] [],
   Step.field [] "parts" [("done", JVal.bool true)], Step.index [] [JVal.null],
   Step.field [] "blob" []]

/-- Eight levels of arrays. -/
def pathDepth8 : List Step := List.replicate 8 (Step.index [] [])

/-- Eight levels of nesting that run through `choices[0].message.content`. -/
def pathUnderChoices : List Step :=
  [Step.field [] "choices" [], Step.index [] [], Step.field [] "message" [],
   Step.field [] "content" [], Step.index [] [], Step.index [] [], Step.index [] [],
   Step.index [] []]

/-- An identifier with a character outside the Basic Multilingual Plane where
the known-invalid pattern has its `.`. -/
def astralModel : String :=
  String.mk ("gemini-flash-1".toList ++ [Char.ofNat 0x1F600] ++ "5-8b".toList)

/-- A string that holds an image URL and, after it, a data URI. -/
def urlThenDataUri : String := "see https://cdn.example.com/out.png or data:image/png;base64,AAAA"

/-! ## Theorems -/

/-! ### The maps -/

theorem mhas_eq_isSome {α : Type} (m : List (String × α)) (k : String) :
    mhas m k = (mget m k).isSome := rfl

theorem mget_nil {α : Type} (k : String) : mget ([] : List (String × α)) k = none := rfl

theorem mget_cons {α : Type} (a : String) (b : α) (m : List (String × α)) (k : String) :
    mget ((a, b) :: m) k = if k = a then some b else mget m k := by
  by_cases h : k = a
  · subst h; simp [mget, List.lookup]
  · have h2 : (k == a) = false := by simpa using h
    simp [mget, List.lookup, h2, h]

theorem mget_map_replace {α : Type} (m : List (String × α)) (k k2 : String) (v : α) :
    mget (m.map (fun p => if p.1 == k then (k, v) else p)) k2 =
      if k2 = k then (mget m k).map (fun _ => v) else mget m k2 := by
  induction m with
  | nil => simp [mget_nil]
  | cons p m ih =>
    obtain ⟨a, b⟩ := p
    rw [List.map_cons]
    by_cases ha : a = k
    · have e : (if ((a, b).1 == k) = true then (k, v) else (a, b)) = (k, v) := by simp [ha]
      rw [e, mget_cons, mget_cons, mget_cons, ih]
      subst ha
      by_cases hk : k2 = a
      · simp [hk]
      · simp [hk]
    · have e : (if ((a, b).1 == k) = true then (k, v) else (a, b)) = (a, b) := by simp [ha]
      rw [e, mget_cons, mget_cons, mget_cons, ih]
      have hka : ¬ k = a := fun h => ha h.symm
      by_cases hk : k2 = k
      · subst hk
        simp [hka]
      · simp [hk, hka]

theorem mget_append_single {α : Type} (m : List (String × α)) (k k2 : String) (v : α) :
    mget (m ++ [(k, v)]) k2 =
      match mget m k2 with
      | some x => some x
      | none => if k2 = k then some v else none := by
  induction m with
  | nil => simp [mget_nil, mget_cons]
  | cons p m ih =>
    obtain ⟨a, b⟩ := p
    rw [List.cons_append, mget_cons, mget_cons, ih]
    by_cases ha : k2 = a
    · simp [ha]
    · simp [ha]

theorem mget_mset_self {α : Type} (m : List (String × α)) (k : String) (v : α) :
    mget (mset m k v) k = some v := by
  unfold mset
  by_cases h : mhas m k = true
  · rw [if_pos h, mget_map_replace]
    rw [mhas_eq_isSome, Option.isSome_iff_exists] at h
    obtain ⟨x, hx⟩ := h
    simp [hx]
  · rw [if_neg h, mget_append_single]
    rw [mhas_eq_isSome] at h
    have hn : mget m k = none := by
      cases hm : mget m k with
      | none => rfl
      | some x => simp [hm] at h
    simp [hn]

theorem mget_mset_ne {α : Type} (m : List (String × α)) (k k2 : String) (v : α)
    (h : k2 ≠ k) : mget (mset m k v) k2 = mget m k2 := by
  unfold mset
  by_cases hh : mhas m k = true
  · rw [if_pos hh, mget_map_replace, if_neg h]
  · rw [if_neg hh, mget_append_single]
    cases hm : mget m k2 with
    | none => simp [h]
    | some x => simp

theorem mhas_mset_self {α : Type} (m : List (String × α)) (k : String) (v : α) :
    mhas (mset m k v) k = true := by
  rw [mhas_eq_isSome, mget_mset_self]; rfl

theorem mget_mdelete {α : Type} (m : List (String × α)) (k k2 : String) :
    mget (mdelete m k) k2 = if k2 = k then none else mget m k2 := by
  induction m with
  | nil => simp [mget_nil, mdelete]
  | cons p m ih =>
    obtain ⟨a, b⟩ := p
    unfold mdelete at ih ⊢
    by_cases ha : a = k
    · have e : ((a, b).1 != k) = false := by simp [ha]
      have e2 : List.filter (fun p : String × α => p.1 != k) ((a, b) :: m) =
          List.filter (fun p : String × α => p.1 != k) m :=
        List.filter_cons_of_neg (by simp [e])
      rw [e2, ih, mget_cons]
      subst ha
      by_cases hk : k2 = a
      · simp [hk]
      · simp [hk]
    · have e : ((a, b).1 != k) = true := by simpa using ha
      have e2 : List.filter (fun p : String × α => p.1 != k) ((a, b) :: m) =
          (a, b) :: List.filter (fun p : String × α => p.1 != k) m :=
        List.filter_cons_of_pos e
      rw [e2, mget_cons, mget_cons, ih]
      by_cases hk : k2 = k
      · have : ¬ k2 = a := fun h => ha (h ▸ hk)
        simp [hk, this]
        intro h; exact absurd h.symm ha
      · simp [hk]

theorem mget_mdelete_self {α : Type} (m : List (String × α)) (k : String) :
    mget (mdelete m k) k = none := by
  rw [mget_mdelete]; simp

theorem mget_mdelete_ne {α : Type} (m : List (String × α)) (k k2 : String) (h : k2 ≠ k) :
    mget (mdelete m k) k2 = mget m k2 := by
  rw [mget_mdelete, if_neg h]

theorem keys_mset_absent {α : Type} (m : List (String × α)) (k : String) (v : α)
    (h : mhas m k = false) : (mset m k v).map Prod.fst = m.map Prod.fst ++ [k] := by
  simp [mset, h]

theorem not_mem_keys_of_mhas_false {α : Type} (m : List (String × α)) (k : String)
    (h : mhas m k = false) : k ∉ m.map Prod.fst := by
  induction m with
  | nil => simp
  | cons p m ih =>
    obtain ⟨a, b⟩ := p
    rw [mhas_eq_isSome, mget_cons] at h
    by_cases ha : k = a
    · simp [ha] at h
    · rw [if_neg ha, ← mhas_eq_isSome] at h
      simp only [List.map_cons, List.mem_cons, not_or]
      exact ⟨ha, ih h⟩

/-! ### The devices of the embedding: fuel and aliasing -/

/-- The fuel of `deepFindImageAux` is not a truncation: any fuel that covers the
levels up to depth 6 gives the result of `deepFindImage`. -/
theorem deepFindImageAux_fuel (P : Platform) :
    ∀ (fuel : Nat) (v : JVal) (d : Nat), 7 ≤ fuel + d →
      deepFindImageAux P fuel v d = deepFindImageAux P (7 - d) v d := by
  intro fuel
  induction fuel with
  | zero =>
    intro v d h
    have : 7 - d = 0 := by omega
    rw [this]
  | succ fuel ih =>
    intro v d h
    by_cases hd : d > 6
    · have e : 7 - d = 0 := by omega
      rw [e]
      simp [deepFindImageAux, hd]
    · obtain ⟨k, hk⟩ : ∃ k, 7 - d = k + 1 := ⟨6 - d, by omega⟩
      have hk2 : k = 7 - (d + 1) := by omega
      have key : ∀ w, deepFindImageAux P fuel w (d + 1) = deepFindImageAux P k w (d + 1) := by
        intro w
        rw [hk2]
        exact ih w (d + 1) (by omega)
      rw [hk]
      simp only [deepFindImageAux, key]

theorem step_job (w : World) (t : Task) (seg : List Eff) (rest : Script)
    (h : t.script = seg :: rest) :
    (t.step w).2.job = runSegment seg t.job ∧ (t.step w).2.script = rest ∧
      (t.step w).2.jobId = t.jobId := by
  have key : ∀ (l : List Eff) (j : Job) (w0 : World),
      (l.foldl (applyEff t.jobId) (j, w0)).1 = l.foldl (fun j e => e.onJob j) j := by
    intro l
    induction l with
    | nil => intro j w0; rfl
    | cons e l ih =>
      intro j w0
      simp only [List.foldl_cons]
      cases e <;> exact ih _ _
  unfold Task.step
  rw [h]
  exact ⟨key seg t.job w, rfl, rfl⟩

theorem applyEff_coherent (jobId : String) (e : Eff) (j : Job) (w : World)
    (h : mget w.jobs jobId = none ∨ mget w.jobs jobId = some j) :
    mget (applyEff jobId (j, w) e).2.jobs jobId = none ∨
      mget (applyEff jobId (j, w) e).2.jobs jobId = some (applyEff jobId (j, w) e).1 := by
  have field : ∀ j2 : Job, mget (reflect w jobId j2).jobs jobId = none ∨
      mget (reflect w jobId j2).jobs jobId = some j2 := by
    intro j2
    unfold reflect
    by_cases hh : mhas w.jobs jobId = true
    · rw [if_pos hh]
      right
      exact mget_mset_self _ _ _
    · rw [if_neg hh]
      left
      rw [mhas_eq_isSome] at hh
      cases hm : mget w.jobs jobId with
      | none => rfl
      | some x => rw [hm] at hh; exact absurd rfl hh
  cases e with
  | jobsSet => right; exact mget_mset_self _ _ _
  | scheduleCleanup =>
    simp only [applyEff, scheduleCleanup]
    split <;> exact h
  | setProgress n => exact field _
  | setResultUrl u => exact field _
  | setResultUrlOriginal => exact field _
  | setStatus s => exact field _
  | setError m => exact field _

/-- What a status poll reads is the task's job object whenever the job is in
the map: every event keeps the map entry and the object in step. -/
theorem coherent_event (e : Event) (s : World × Task) (h : Coherent s) :
    Coherent (e.apply s) := by
  obtain ⟨w, t⟩ := s
  cases e with
  | taskStep =>
    unfold Coherent Event.apply Task.step
    simp only []
    cases hs : t.script with
    | nil => exact h
    | cons seg rest =>
      simp only []
      have key : ∀ (l : List Eff) (j : Job) (w0 : World),
          (mget w0.jobs t.jobId = none ∨ mget w0.jobs t.jobId = some j) →
          (mget (l.foldl (applyEff t.jobId) (j, w0)).2.jobs t.jobId = none ∨
            mget (l.foldl (applyEff t.jobId) (j, w0)).2.jobs t.jobId =
              some (l.foldl (applyEff t.jobId) (j, w0)).1) := by
        intro l
        induction l with
        | nil => intro j w0 h0; exact h0
        | cons e l ih =>
          intro j w0 h0
          simp only [List.foldl_cons]
          exact ih _ _ (applyEff_coherent t.jobId e j w0 h0)
      exact key seg t.job w h
  | delete jobId =>
    unfold Coherent Event.apply deleteJob
    simp only []
    split
    · simp only [mget_mdelete]
      split
      · left; rfl
      · exact h
    · exact h
  | timer jobId =>
    unfold Coherent Event.apply fireTimer
    simp only []
    split
    · simp only [mget_mdelete]
      split
      · left; rfl
      · exact h
    · exact h

theorem coherent_run (es : List Event) (s : World × Task) (h : Coherent s) :
    Coherent (runEvents es s) := by
  unfold runEvents
  induction es generalizing s with
  | nil => exact h
  | cons e es ih => exact ih _ (coherent_event e s h)

theorem coherent_transform (env : Env) (w : World) (imageId jobId : String) (s : World × Task)
    (h : transform env w imageId jobId = some s) : Coherent s := by
  unfold transform at h
  split at h
  · cases h
  · split at h
    · cases h
    · simp only [Option.some.injEq] at h
      rw [← h]
      right
      exact mget_mset_self _ _ _

/-! ### Retention and deletion -/

/-- Scheduling on any table: a first call registers the timer, any later call
changes nothing, and distinct keys stay distinct. -/
theorem scheduleCleanup_twice (w : World) (jobId imageId imageId2 : String) :
    scheduleCleanup (scheduleCleanup w jobId imageId) jobId imageId2 =
      scheduleCleanup w jobId imageId ∧
    ((w.cleanupTimers.map Prod.fst).Nodup →
      ((scheduleCleanup w jobId imageId).cleanupTimers.map Prod.fst).Nodup) := by
  by_cases h : mhas w.cleanupTimers jobId = true
  · have e1 : scheduleCleanup w jobId imageId = w := by simp [scheduleCleanup, h]
    have e2 : scheduleCleanup w jobId imageId2 = w := by simp [scheduleCleanup, h]
    rw [e1, e2]
    exact ⟨rfl, fun hn => hn⟩
  · have hf : mhas w.cleanupTimers jobId = false := by simpa using h
    have e1 : scheduleCleanup w jobId imageId =
        { w with cleanupTimers := mset w.cleanupTimers jobId imageId } := by
      simp [scheduleCleanup, hf]
    constructor
    · rw [e1]
      simp [scheduleCleanup, mhas_mset_self]
    · intro hn
      rw [e1]
      show ((mset w.cleanupTimers jobId imageId).map Prod.fst).Nodup
      rw [keys_mset_absent _ _ _ hf]
      rw [List.nodup_append]
      refine ⟨hn, List.nodup_singleton _, ?_⟩
      intro a ha hb
      rw [List.mem_singleton] at hb
      subst hb
      exact not_mem_keys_of_mhas_false _ _ hf ha

/-- C10: `scheduleCleanup` is idempotent per job id. A call for a job id that
already has a pending timer leaves the stores, and so the timer table, unchanged:
the first timer and its blob id stay and no second entry appears.  In
particular a second call right after a first one changes nothing, and scheduling
never puts two entries under one job id. -/
theorem scheduleCleanup_idempotent (w : World) (jobId imageId imageId2 : String) :
    (mhas w.cleanupTimers jobId = true →
      scheduleCleanup w jobId imageId2 = w ∧
      mget (scheduleCleanup w jobId imageId2).cleanupTimers jobId =
        mget w.cleanupTimers jobId) ∧
    scheduleCleanup (scheduleCleanup w jobId imageId) jobId imageId2 =
      scheduleCleanup w jobId imageId ∧
    mget (scheduleCleanup (scheduleCleanup w jobId imageId) jobId imageId2).cleanupTimers jobId =
      mget (scheduleCleanup w jobId imageId).cleanupTimers jobId ∧
    ((w.cleanupTimers.map Prod.fst).Nodup →
      ((scheduleCleanup w jobId imageId).cleanupTimers.map Prod.fst).Nodup) := by
  refine ⟨?_, (scheduleCleanup_twice w jobId imageId imageId2).1, ?_,
    (scheduleCleanup_twice w jobId imageId imageId2).2⟩
  · intro h
    have e : scheduleCleanup w jobId imageId2 = w := by simp [scheduleCleanup, h]
    rw [e]
    exact ⟨rfl, rfl⟩
  · rw [(scheduleCleanup_twice w jobId imageId imageId2).1]

/-- Witness of C10 on a table holding one timer. -/
theorem scheduleCleanup_idempotent_witness :
    scheduleCleanup { World.empty with cleanupTimers := [("job1", "img1")] } "job1" "img2" =
      { World.empty with cleanupTimers := [("job1", "img1")] } :=
  ((scheduleCleanup_idempotent { World.empty with cleanupTimers := [("job1", "img1")] }
    "job1" "img1" "img2").1 (by decide)).1

/-- C11: deleting job A removes A, A's blob and A's timer entry, and leaves the
record of another job B, B's blob and B's timer entry as they were, when B was
created from a different upload. -/
theorem deleteJob_frame (w : World) (a b : String) (jobA jobB : Job)
    (hA : mget w.jobs a = some jobA) (hB : mget w.jobs b = some jobB)
    (hab : b ≠ a) (himg : jobB.imageId ≠ jobA.imageId) :
    mget (deleteJob w a).jobs a = none ∧
    mget (deleteJob w a).images jobA.imageId = none ∧
    mget (deleteJob w a).cleanupTimers a = none ∧
    mget (deleteJob w a).jobs b = some jobB ∧
    jobStatus (deleteJob w a) b = jobStatus w b ∧
    mget (deleteJob w a).images jobB.imageId = mget w.images jobB.imageId ∧
    mget (deleteJob w a).cleanupTimers b = mget w.cleanupTimers b := by
  have e : deleteJob w a =
      { jobs := mdelete w.jobs a, images := mdelete w.images jobA.imageId,
        cleanupTimers := mdelete w.cleanupTimers a } := by
    simp [deleteJob, hA]
  rw [e]
  refine ⟨mget_mdelete_self _ _, mget_mdelete_self _ _, mget_mdelete_self _ _, ?_, ?_, ?_, ?_⟩
  · show mget (mdelete w.jobs a) b = some jobB
    rw [mget_mdelete_ne _ _ _ hab, hB]
  · show (mget (mdelete w.jobs a) b).map Job.report = (mget w.jobs b).map Job.report
    rw [mget_mdelete_ne _ _ _ hab]
  · exact mget_mdelete_ne _ _ _ himg
  · exact mget_mdelete_ne _ _ _ hab

/-- Witness of C11: two jobs from two uploads, both completed and scheduled. -/
theorem deleteJob_frame_witness :
    mget (deleteJob
      { jobs := [("jobA", newJob "jobA" "imgA" "data:a"), ("jobB", newJob "jobB" "imgB" "data:b")],
        images := [("imgA", ⟨"imgA", [1], "data:a", "image/png"⟩),
                   ("imgB", ⟨"imgB", [2], "data:b", "image/png"⟩)],
        cleanupTimers := [("jobA", "imgA"), ("jobB", "imgB")] } "jobA").jobs "jobB" =
      some (newJob "jobB" "imgB" "data:b") :=
  (deleteJob_frame
    { jobs := [("jobA", newJob "jobA" "imgA" "data:a"), ("jobB", newJob "jobB" "imgB" "data:b")],
      images := [("imgA", ⟨"imgA", [1], "data:a", "image/png"⟩),
                 ("imgB", ⟨"imgB", [2], "data:b", "image/png"⟩)],
      cleanupTimers := [("jobA", "imgA"), ("jobB", "imgB")] }
    "jobA" "jobB" (newJob "jobA" "imgA" "data:a") (newJob "jobB" "imgB" "data:b")
    (by decide) (by decide) (by decide) (by decide)).2.2.2.1

/-- C3 (the code departs from the claim): a job deleted while its task is in
flight comes back.  In mock mode, after the first orchestrator step the job is
deleted and a status lookup reports not found; the very next step runs
`jobs.set(jobId, job)` and the job is in the map again, reported at progress 60;
the run ends with the job completed and a cleanup timer registered for it. -/
theorem deleted_job_is_reinserted :
    (transform mockEnv demoWorld "img1" "job1").map (fun s =>
      (jobStatus (runEvents [Event.taskStep, Event.delete "job1"] s).1 "job1",
       (jobStatus (runEvents [Event.taskStep, Event.delete "job1", Event.taskStep] s).1
          "job1").map (fun r => (r.status, r.progress)),
       (jobStatus (runEvents [Event.taskStep, Event.delete "job1", Event.taskStep,
          Event.taskStep, Event.taskStep, Event.taskStep] s).1 "job1").map
            (fun r => r.status),
       mget (runEvents [Event.taskStep, Event.delete "job1", Event.taskStep,
          Event.taskStep, Event.taskStep, Event.taskStep] s).1.cleanupTimers "job1")) =
    some (none, some (Status.processing, 60), some Status.completed, some "img1") := by
  decide

/-- C4 (the code departs from the claim): a job that ends failed gets no
retention entry.  In real mode without an API key the run ends after two steps
with the job failed, the job and its blob still stored, and the timer table
empty; the completed run of mock mode does register the timer. -/
theorem failed_job_has_no_timer :
    (transform noKeyEnv demoWorld "img1" "job1").map (fun s =>
      ((runEvents [Event.taskStep, Event.taskStep] s).2.script,
       (jobStatus (runEvents [Event.taskStep, Event.taskStep] s).1 "job1").map
          (fun r => r.status),
       mhas (runEvents [Event.taskStep, Event.taskStep] s).1.images "img1",
       (runEvents [Event.taskStep, Event.taskStep] s).1.cleanupTimers)) =
      some ([], some Status.failed, true, []) ∧
    (transform mockEnv demoWorld "img1" "job1").map (fun s =>
      (runEvents (List.replicate 5 Event.taskStep) s).1.cleanupTimers) =
      some [("job1", "img1")] := by
  decide

/-! ### Mock mode -/

/-- C7: in mock mode, whatever the bytes and the mime type of the upload, the
job that `transform` creates ends completed with `resultUrl` equal to its
`originalUrl`, the data URL built at upload from those bytes and that type. -/
theorem mock_result_is_original (env : Env) (w : World) (imageId jobId : String)
    (buffer : List Nat) (mimetype : String) (hmock : env.useMock = true)
    (hid : imageId ≠ "") :
    ∃ w1 t, transform env (uploadPhoto w imageId buffer mimetype) imageId jobId = some (w1, t) ∧
      (runEvents (List.replicate 5 Event.taskStep) (w1, t)).2.script = [] ∧
      ∃ job, mget (runEvents (List.replicate 5 Event.taskStep) (w1, t)).1.jobs jobId = some job ∧
        (runEvents (List.replicate 5 Event.taskStep) (w1, t)).2.job = job ∧
        job.status = Status.completed ∧
        job.resultUrl = some job.originalUrl ∧
        job.originalUrl = makeDataUrl mimetype buffer ∧
        (mget (uploadPhoto w imageId buffer mimetype).images imageId).map Image.dataUrl =
          some job.originalUrl := by
  have himg : mget (uploadPhoto w imageId buffer mimetype).images imageId =
      some { id := imageId, buffer := buffer, dataUrl := makeDataUrl mimetype buffer,
             mimetype := mimetype } := by
    simp [uploadPhoto, mget_mset_self, uploadedImage]
  have hid2 : (imageId == "") = false := by simpa using hid
  have ht : transform env (uploadPhoto w imageId buffer mimetype) imageId jobId =
      some ({ uploadPhoto w imageId buffer mimetype with
                jobs := mset (uploadPhoto w imageId buffer mimetype).jobs jobId
                  (newJob jobId imageId (makeDataUrl mimetype buffer)) },
            { jobId := jobId, job := newJob jobId imageId (makeDataUrl mimetype buffer),
              script := processTransformation env
                { id := imageId, buffer := buffer, dataUrl := makeDataUrl mimetype buffer,
                  mimetype := mimetype }
                (newJob jobId imageId (makeDataUrl mimetype buffer)) }) := by
    simp [transform, hid2, himg]
  refine ⟨_, _, ht, ?_⟩
  simp only [processTransformation, hmock, if_true, List.replicate, runEvents, List.foldl,
    Event.apply, Task.step, applyEff, completeEffs, Eff.onJob, reflect, mhas_mset_self,
    newJob]
  refine ⟨trivial,
    { id := jobId, imageId := imageId, status := Status.completed,
      originalUrl := makeDataUrl mimetype buffer,
      resultUrl := some (makeDataUrl mimetype buffer), error := none, progress := some 100 },
    ?_, rfl, rfl, rfl, rfl, ?_⟩
  · simp only [scheduleCleanup]
    split
    · rw [mget_mset_self]
    · rw [mget_mset_self]
  · rw [himg]; rfl

/-- Witness of C7 on a three-byte upload. -/
theorem mock_result_is_original_witness :
    ∃ w1 t, transform mockEnv (uploadPhoto World.empty "img1" [77, 97, 110] "image/png")
        "img1" "job1" = some (w1, t) ∧
      (runEvents (List.replicate 5 Event.taskStep) (w1, t)).2.script = [] ∧
      ∃ job, mget (runEvents (List.replicate 5 Event.taskStep) (w1, t)).1.jobs "job1" = some job ∧
        (runEvents (List.replicate 5 Event.taskStep) (w1, t)).2.job = job ∧
        job.status = Status.completed ∧
        job.resultUrl = some job.originalUrl ∧
        job.originalUrl = makeDataUrl "image/png" [77, 97, 110] ∧
        (mget (uploadPhoto World.empty "img1" [77, 97, 110] "image/png").images "img1").map
          Image.dataUrl = some job.originalUrl :=
  mock_result_is_original mockEnv World.empty "img1" "job1" [77, 97, 110] "image/png" rfl
    (by decide)

/-! ### The shapes of a run -/

theorem append_ne_empty_left (a b : String) (h : a ≠ "") : a ++ b ≠ "" := by
  intro e
  apply h
  have := congrArg String.data e
  rw [String.data_append] at this
  have h2 : a.data = [] := (List.append_eq_nil.mp this).1
  exact String.ext h2

theorem dataUrl_nonempty (a b c : String) : ("data:" ++ a ++ b ++ c != "") = true := by
  have h : "data:" ++ a ++ b ++ c ≠ "" := by
    apply append_ne_empty_left
    apply append_ne_empty_left
    apply append_ne_empty_left
    decide
  simpa using h

theorem makeDataUrl_nonempty (mimetype : String) (buffer : List Nat) :
    makeDataUrl mimetype buffer ≠ "" := by
  have h := dataUrl_nonempty mimetype ";base64," (String.mk (toBase64 buffer))
  simpa [makeDataUrl] using h

theorem fromFallbackCheck_of_result (env : Env) (job : Job) (h : job.hasResult = true) :
    fromFallbackCheck env job = [completeEffs, [Eff.scheduleCleanup]] := by
  simp [fromFallbackCheck, h]

theorem fromFallbackCheck_of_none (env : Env) (job : Job) (h : job.hasResult = false) :
    fromFallbackCheck env job =
        [[], Eff.setResultUrlOriginal :: completeEffs, [Eff.scheduleCleanup]] ∨
      fromFallbackCheck env job = [[], failEffs "No image generated by AI"] := by
  unfold fromFallbackCheck
  rw [h]
  by_cases hf : env.allowFallback = true
  · left; simp [hf]
  · right; simp [hf]

theorem remoteFailed_form (env : Env) (job : Job) (ho : job.originalUrl ≠ "") :
    remoteFailed env job =
      [[], Eff.setResultUrlOriginal :: completeEffs, [Eff.scheduleCleanup]] := by
  have h : (Eff.setResultUrlOriginal.onJob job).hasResult = true := by
    simp [Eff.onJob, Job.hasResult, ho]
  rw [remoteFailed, fromFallbackCheck_of_result env _ h]
  rfl

/-- The four shapes of lines 483-524. -/
theorem afterExtraction_forms (env : Env) (job : Job) (result : Option JVal)
    (hr : job.resultUrl = none) (ho : job.originalUrl ≠ "") :
    (∃ u, afterExtraction env job result =
        [Eff.setResultUrl u :: completeEffs, [Eff.scheduleCleanup]]) ∨
    (∃ v, afterExtraction env job result =
        [[], [Eff.setResultUrl v], completeEffs, [Eff.scheduleCleanup]]) ∨
    afterExtraction env job result =
        [[], Eff.setResultUrlOriginal :: completeEffs, [Eff.scheduleCleanup]] ∨
    (∃ m, afterExtraction env job result = [[], failEffs m]) := by
  have hno : job.hasResult = false := by simp [Job.hasResult, hr]
  have hrest : fromFallbackCheck env job =
        [[], Eff.setResultUrlOriginal :: completeEffs, [Eff.scheduleCleanup]] ∨
      (∃ m, fromFallbackCheck env job = [[], failEffs m]) := by
    rcases fromFallbackCheck_of_none env job hno with h | h
    · exact Or.inl h
    · exact Or.inr ⟨_, h⟩
  unfold afterExtraction
  split
  · rename_i u
    by_cases h1 : (u != "" && jsStartsWith u "data:image/") = true
    · left
      refine ⟨u, ?_⟩
      have hu : (u != "") = true := by
        simp only [Bool.and_eq_true] at h1
        exact h1.1
      have h : ((Eff.setResultUrl u).onJob job).hasResult = true := by
        simp only [Eff.onJob, Job.hasResult]
        exact hu
      rw [if_pos h1, fromFallbackCheck_of_result env _ h]
      rfl
    · rw [if_neg h1]
      by_cases h2 : (u != "" && startsWithHttp u) = true
      · rw [if_pos h2]
        unfold fetchRemote
        split
        · right; right; left; exact remoteFailed_form env job ho
        · rename_i r _
          by_cases hok : (!r.ok) = true
          · rw [if_pos hok]
            right; right; left; exact remoteFailed_form env job ho
          · rw [if_neg hok]
            split
            · right; right; left; exact remoteFailed_form env job ho
            · rename_i bytes _
              right; left
              refine ⟨"data:" ++ remoteContentType r ++ ";base64," ++ String.mk (toBase64 bytes), ?_⟩
              have h : ((Eff.setResultUrl ("data:" ++ remoteContentType r ++ ";base64," ++
                  String.mk (toBase64 bytes))).onJob job).hasResult = true := by
                simp only [Eff.onJob, Job.hasResult]
                exact dataUrl_nonempty _ _ _
              simp only []
              rw [fromFallbackCheck_of_result env _ h]
      · rw [if_neg h2]
        rcases hrest with h | h
        · right; right; left; exact h
        · right; right; right; exact h
  · rename_i v _
    by_cases hv : v.truthy = true
    · rw [if_pos hv]
      right; right; right; exact ⟨_, rfl⟩
    · rw [if_neg hv]
      rcases hrest with h | h
      · right; right; left; exact h
      · right; right; right; exact h
  · rcases hrest with h | h
    · right; right; left; exact h
    · right; right; right; exact h

/-- The six shapes of a run of `processTransformation` on a job that has no
result yet and a non-empty original. -/
theorem processTransformation_forms (env : Env) (image : Image) (job : Job)
    (hr : job.resultUrl = none) (ho : job.originalUrl ≠ "") :
    processTransformation env image job =
      [[Eff.setProgress 30, Eff.jobsSet], [Eff.setProgress 60, Eff.jobsSet],
       [Eff.setResultUrl (makeDataUrl image.mimetype image.buffer)], completeEffs,
       [Eff.scheduleCleanup]] ∨
    (∃ m, processTransformation env image job =
      [[Eff.setProgress 30, Eff.jobsSet], failEffs m]) ∨
    (∃ u, processTransformation env image job =
      [[Eff.setProgress 30, Eff.jobsSet],
       [Eff.setProgress 70, Eff.jobsSet] ++ Eff.setResultUrl u :: completeEffs,
       [Eff.scheduleCleanup]]) ∨
    (∃ v, processTransformation env image job =
      [[Eff.setProgress 30, Eff.jobsSet], [Eff.setProgress 70, Eff.jobsSet],
       [Eff.setResultUrl v], completeEffs, [Eff.scheduleCleanup]]) ∨
    processTransformation env image job =
      [[Eff.setProgress 30, Eff.jobsSet], [Eff.setProgress 70, Eff.jobsSet],
       Eff.setResultUrlOriginal :: completeEffs, [Eff.scheduleCleanup]] ∨
    (∃ m, processTransformation env image job =
      [[Eff.setProgress 30, Eff.jobsSet], [Eff.setProgress 70, Eff.jobsSet], failEffs m]) := by
  simp only [processTransformation]
  by_cases hm : env.useMock = true
  · left; rw [if_pos hm]
  · rw [if_neg hm]
    by_cases hk : (orElse env.apiKey "" == "") = true
    · right; left; exact ⟨missingKeyMessage, by rw [if_pos hk]⟩
    · rw [if_neg hk]
      cases hg : gateway env.provider (candidateModels env.envModel) with
      | error msg => right; left; exact ⟨msg, rfl⟩
      | ok data =>
        have hr2 : ((Eff.setProgress 70).onJob job).resultUrl = none := by
          simp [Eff.onJob, hr]
        have ho2 : ((Eff.setProgress 70).onJob job).originalUrl ≠ "" := by
          simp [Eff.onJob, ho]
        simp only []
        rcases afterExtraction_forms env ((Eff.setProgress 70).onJob job)
            (extractResult env.platform data) hr2 ho2 with ⟨u, h⟩ | ⟨v, h⟩ | h | ⟨m, h⟩
        · right; right; left
          exact ⟨u, by rw [h]; rfl⟩
        · right; right; right; left
          exact ⟨v, by rw [h]; rfl⟩
        · right; right; right; right; left
          rw [h]; rfl
        · right; right; right; right; right
          exact ⟨m, by rw [h]; rfl⟩

theorem trace_invariants (env : Env) (image : Image) (jobId imageId originalUrl : String)
    (ho : originalUrl ≠ "") :
    TraceInvariants
      (newJob jobId imageId originalUrl ::
        observe (processTransformation env image (newJob jobId imageId originalUrl))
          (newJob jobId imageId originalUrl)) := by
  rcases processTransformation_forms env image (newJob jobId imageId originalUrl) rfl ho with
    h | ⟨m, h⟩ | ⟨u, h⟩ | ⟨v, h⟩ | h | ⟨m, h⟩
  all_goals rw [h]
  all_goals simp [TraceInvariants, observe, runSegment, Eff.onJob, completeEffs, failEffs,
    Job.report, newJob]

/-- C5: once the status of a job is completed or failed, no later orchestrator
step changes it.  For every run (mock or real, any provider, any remote fetch)
on a job created by `transform` from an uploaded image, in the sequence of
observable states every state after a terminal one has the same status. -/
theorem terminal_status_is_final (env : Env) (imageId jobId mimetype : String)
    (buffer : List Nat) :
    List.Pairwise (fun a b : Job => a.status ≠ Status.processing → b.status = a.status)
      (newJob jobId imageId (uploadedImage imageId buffer mimetype).dataUrl ::
        observe
          (processTransformation env (uploadedImage imageId buffer mimetype)
            (newJob jobId imageId (uploadedImage imageId buffer mimetype).dataUrl))
          (newJob jobId imageId (uploadedImage imageId buffer mimetype).dataUrl)) :=
  (trace_invariants env (uploadedImage imageId buffer mimetype) jobId imageId _
    (makeDataUrl_nonempty mimetype buffer)).1

/-- C6: the progress a status poll reports (`job.progress || 0`) never decreases
from one observable state to a later one, always lies in 0..100, and is 100
exactly when the status is completed. -/
theorem progress_is_monotone (env : Env) (imageId jobId mimetype : String)
    (buffer : List Nat) :
    List.Pairwise (fun a b : Job => a.report.progress ≤ b.report.progress)
      (newJob jobId imageId (uploadedImage imageId buffer mimetype).dataUrl ::
        observe
          (processTransformation env (uploadedImage imageId buffer mimetype)
            (newJob jobId imageId (uploadedImage imageId buffer mimetype).dataUrl))
          (newJob jobId imageId (uploadedImage imageId buffer mimetype).dataUrl)) ∧
    ∀ a ∈ (newJob jobId imageId (uploadedImage imageId buffer mimetype).dataUrl ::
        observe
          (processTransformation env (uploadedImage imageId buffer mimetype)
            (newJob jobId imageId (uploadedImage imageId buffer mimetype).dataUrl))
          (newJob jobId imageId (uploadedImage imageId buffer mimetype).dataUrl)),
      0 ≤ a.report.progress ∧ a.report.progress ≤ 100 ∧
        (a.report.progress = 100 ↔ a.status = Status.completed) :=
  ⟨(trace_invariants env (uploadedImage imageId buffer mimetype) jobId imageId _
      (makeDataUrl_nonempty mimetype buffer)).2.1,
   fun a ha => ⟨Nat.zero_le _,
     (trace_invariants env (uploadedImage imageId buffer mimetype) jobId imageId _
      (makeDataUrl_nonempty mimetype buffer)).2.2.1 a ha⟩⟩

/-- C12, as stated, fails: in mock mode a status poll after the third
orchestrator step reports status processing together with a non-null
`resultUrl`. -/
theorem result_visible_while_processing :
    (transform mockEnv demoWorld "img1" "job1").map (fun s =>
      (jobStatus (runEvents [Event.taskStep, Event.taskStep, Event.taskStep] s).1 "job1").map
        (fun r => (r.status, r.resultUrl))) =
    some (some (Status.processing, some "data:image/png;base64,TWFu")) := by
  decide

/-- C12, amended: a processing job shows a non-null `resultUrl` only at the
suspension point that follows the write of the result, and the next orchestrator
step completes the job with that same `resultUrl`; a job starts with `resultUrl`
null, a failed job shows `resultUrl` null, and the last state of a run is
terminal (a run being one in which every awaited call settles). -/
theorem result_then_completed (env : Env) (imageId jobId mimetype : String)
    (buffer : List Nat) :
    (newJob jobId imageId (uploadedImage imageId buffer mimetype).dataUrl).resultUrl = none ∧
    List.Chain' (fun a b : Job => a.status = Status.processing → a.resultUrl ≠ none →
        b.status = Status.completed ∧ b.resultUrl = a.resultUrl)
      (newJob jobId imageId (uploadedImage imageId buffer mimetype).dataUrl ::
        observe
          (processTransformation env (uploadedImage imageId buffer mimetype)
            (newJob jobId imageId (uploadedImage imageId buffer mimetype).dataUrl))
          (newJob jobId imageId (uploadedImage imageId buffer mimetype).dataUrl)) ∧
    (∀ a ∈ (newJob jobId imageId (uploadedImage imageId buffer mimetype).dataUrl ::
        observe
          (processTransformation env (uploadedImage imageId buffer mimetype)
            (newJob jobId imageId (uploadedImage imageId buffer mimetype).dataUrl))
          (newJob jobId imageId (uploadedImage imageId buffer mimetype).dataUrl)),
      a.status = Status.failed → a.resultUrl = none) ∧
    (∀ a, (newJob jobId imageId (uploadedImage imageId buffer mimetype).dataUrl ::
        observe
          (processTransformation env (uploadedImage imageId buffer mimetype)
            (newJob jobId imageId (uploadedImage imageId buffer mimetype).dataUrl))
          (newJob jobId imageId (uploadedImage imageId buffer mimetype).dataUrl)).getLast? =
        some a → a.status ≠ Status.processing) :=
  ⟨rfl,
   (trace_invariants env (uploadedImage imageId buffer mimetype) jobId imageId _
      (makeDataUrl_nonempty mimetype buffer)).2.2.2.1,
   (trace_invariants env (uploadedImage imageId buffer mimetype) jobId imageId _
      (makeDataUrl_nonempty mimetype buffer)).2.2.2.2.1,
   (trace_invariants env (uploadedImage imageId buffer mimetype) jobId imageId _
      (makeDataUrl_nonempty mimetype buffer)).2.2.2.2.2⟩

/-! ### Candidate models -/

theorem toLower_eq_of_not_upper (c : Char) (h : ¬ (c.toNat ≥ 65 ∧ c.toNat ≤ 90)) :
    c.toLower = c := by
  unfold Char.toLower
  simp only [h, if_false]

theorem isJsSpace_not_upper (c : Char) (h : isJsSpace c = true) :
    ¬ (c.toNat ≥ 65 ∧ c.toNat ≤ 90) := by
  simp only [isJsSpace, Bool.or_eq_true, Bool.and_eq_true, beq_iff_eq, decide_eq_true_eq] at h
  omega

theorem space_not_letter (c x : Char) (h : isJsSpace c = true) (hx : isJsSpace x.toLower = false) :
    (Atom.ci x).accepts c = false := by
  have e : c.toLower = c := toLower_eq_of_not_upper c (isJsSpace_not_upper c h)
  simp only [Atom.accepts, e]
  by_contra hne
  have hc : c = x.toLower := by simpa using hne
  rw [hc, hx] at h
  exact Bool.noConfusion h

theorem searchFixed_dropWhile_space (x : Char) (p : List Atom)
    (hx : isJsSpace x.toLower = false) (l : List Char) :
    searchFixed (Atom.ci x :: p) (l.dropWhile isJsSpace) = searchFixed (Atom.ci x :: p) l := by
  induction l with
  | nil => rfl
  | cons c l ih =>
    by_cases hc : isJsSpace c = true
    · rw [List.dropWhile_cons_of_pos hc, ih]
      simp only [searchFixed, matchHere, space_not_letter c x hc hx, Bool.false_and,
        Bool.false_or]
    · rw [List.dropWhile_cons_of_neg hc]

theorem matchHere_append_rejected (c : Char) :
    ∀ (p : List Atom) (hp : p ≠ []), (p.getLast hp).accepts c = false →
      ∀ t : List Char, matchHere p (t ++ [c]) = matchHere p t := by
  intro p
  induction p with
  | nil => intro hp; exact absurd rfl hp
  | cons a p ih =>
    intro hp hlast t
    cases p with
    | nil =>
      cases t with
      | nil =>
        have : a.accepts c = false := by simpa using hlast
        simp [matchHere, this]
      | cons x t => simp [matchHere]
    | cons b ps =>
      have hlast2 : ((b :: ps).getLast (by simp)).accepts c = false := by
        simpa [List.getLast_cons] using hlast
      cases t with
      | nil => simp [matchHere]
      | cons x t =>
        rw [List.cons_append]
        simp only [matchHere]
        rw [ih (by simp) hlast2 t]

theorem searchFixed_append_rejected (c : Char) (p : List Atom) (hp : p ≠ [])
    (hlast : (p.getLast hp).accepts c = false) (l : List Char) :
    searchFixed p (l ++ [c]) = searchFixed p l := by
  induction l with
  | nil =>
    have h := matchHere_append_rejected c p hp hlast []
    simp only [List.nil_append] at h
    simp only [List.nil_append, searchFixed, h, Bool.or_self]
  | cons x l ih =>
    have h := matchHere_append_rejected c p hp hlast (x :: l)
    rw [List.cons_append] at h
    rw [List.cons_append]
    simp only [searchFixed]
    rw [h, ih]

theorem searchFixed_trimEnd (p : List Atom) (hp : p ≠ [])
    (hlast : ∀ c, isJsSpace c = true → (p.getLast hp).accepts c = false) (l : List Char) :
    searchFixed p (trimEnd l) = searchFixed p l := by
  have key : ∀ r : List Char,
      searchFixed p (r.dropWhile isJsSpace).reverse = searchFixed p r.reverse := by
    intro r
    induction r with
    | nil => rfl
    | cons c r ih =>
      by_cases hc : isJsSpace c = true
      · rw [List.dropWhile_cons_of_pos hc, ih, List.reverse_cons,
          searchFixed_append_rejected c p hp (hlast c hc)]
      · rw [List.dropWhile_cons_of_neg hc]
  have h := key l.reverse
  rw [List.reverse_reverse] at h
  exact h

/-- Trimming does not change whether an identifier matches the known-invalid
pattern: a match begins with `g` and ends with `b`. -/
theorem isInvalidModel_jsTrim (s : String) : isInvalidModel (jsTrim s) = isInvalidModel s := by
  unfold isInvalidModel jsTrim
  show searchFixed invalidModelPattern (trimEnd (trimStart s.data)) = _
  rw [searchFixed_trimEnd invalidModelPattern (by decide)]
  · exact searchFixed_dropWhile_space 'g' _ (by decide) s.data
  · intro c hc
    have e : invalidModelPattern.getLast (by decide) = Atom.ci 'b' := by decide
    rw [e]
    exact space_not_letter c 'b' hc (by decide)

theorem dropWhile_append_single_of_neg (c : Char) (hc : isJsSpace c = false) (r : List Char) :
    (r ++ [c]).dropWhile isJsSpace = r.dropWhile isJsSpace ++ [c] := by
  induction r with
  | nil => simp [List.dropWhile, hc]
  | cons x r ih =>
    by_cases hx : isJsSpace x = true
    · rw [List.cons_append, List.dropWhile_cons_of_pos hx, List.dropWhile_cons_of_pos hx, ih]
    · rw [List.cons_append, List.dropWhile_cons_of_neg hx, List.dropWhile_cons_of_neg hx]
      rfl

theorem trimEnd_cons_of_neg (c : Char) (hc : isJsSpace c = false) (x : List Char) :
    trimEnd (c :: x) = c :: trimEnd x := by
  unfold trimEnd
  rw [List.reverse_cons, dropWhile_append_single_of_neg c hc, List.reverse_append]
  rfl

theorem dropWhile_dropWhile (l : List Char) :
    (l.dropWhile isJsSpace).dropWhile isJsSpace = l.dropWhile isJsSpace := by
  induction l with
  | nil => rfl
  | cons x l ih =>
    by_cases hx : isJsSpace x = true
    · rw [List.dropWhile_cons_of_pos hx, ih]
    · rw [List.dropWhile_cons_of_neg hx, List.dropWhile_cons_of_neg hx]

theorem trimEnd_trimEnd (l : List Char) : trimEnd (trimEnd l) = trimEnd l := by
  unfold trimEnd
  rw [List.reverse_reverse, dropWhile_dropWhile]

theorem jsTrim_jsTrim (s : String) : jsTrim (jsTrim s) = jsTrim s := by
  unfold jsTrim
  show String.mk (trimEnd (trimStart (trimEnd (trimStart s.data)))) = _
  congr 1
  cases hx : trimStart s.data with
  | nil => rfl
  | cons c x =>
    have hc : isJsSpace c = false := by
      have h := List.head_dropWhile_not isJsSpace s.data (by
        show List.dropWhile isJsSpace s.data ≠ []
        unfold trimStart at hx
        rw [hx]; simp)
      have e : (List.dropWhile isJsSpace s.data).head (by
          unfold trimStart at hx; rw [hx]; simp) = c := by
        unfold trimStart at hx
        simp [hx]
      rw [e] at h
      exact h
    rw [trimEnd_cons_of_neg c hc]
    have e2 : trimStart (c :: trimEnd x) = c :: trimEnd x := by
      unfold trimStart
      rw [List.dropWhile_cons_of_neg (by simp [hc])]
    rw [e2, trimEnd_cons_of_neg c hc, trimEnd_trimEnd]

theorem keepFirst_configured (t : String) :
    keepFirstOccurrences
      [t, t, "google/gemini-2.5-flash-image-preview", "google/gemini-2.5-flash",
       "google/gemini-2.5-pro", "google/gemini-flash-1.5"] =
      t :: fallbackModels.filter (fun m => m != t) := by
  by_cases h1 : t = "google/gemini-2.5-flash-image-preview"
  · subst h1; decide
  by_cases h2 : t = "google/gemini-2.5-flash"
  · subst h2; decide
  by_cases h3 : t = "google/gemini-2.5-pro"
  · subst h3; decide
  by_cases h4 : t = "google/gemini-flash-1.5"
  · subst h4; decide
  have a1 : (t == "google/gemini-2.5-flash-image-preview") = false := by simpa using h1
  have a2 : (t == "google/gemini-2.5-flash") = false := by simpa using h2
  have a3 : (t == "google/gemini-2.5-pro") = false := by simpa using h3
  have a4 : (t == "google/gemini-flash-1.5") = false := by simpa using h4
  have b1 : ("google/gemini-2.5-flash-image-preview" == t) = false := by
    simpa using fun h => h1 h.symm
  have b2 : ("google/gemini-2.5-flash" == t) = false := by simpa using fun h => h2 h.symm
  have b3 : ("google/gemini-2.5-pro" == t) = false := by simpa using fun h => h3 h.symm
  have b4 : ("google/gemini-flash-1.5" == t) = false := by simpa using fun h => h4 h.symm
  have c1 : ¬ "google/gemini-2.5-flash-image-preview" = t := fun h => h1 h.symm
  have c2 : ¬ "google/gemini-2.5-flash" = t := fun h => h2 h.symm
  have c3 : ¬ "google/gemini-2.5-pro" = t := fun h => h3 h.symm
  have c4 : ¬ "google/gemini-flash-1.5" = t := fun h => h4 h.symm
  simp [keepFirstOccurrences, fallbackModels, List.enum, List.enumFrom, List.indexOf_cons,
    List.filter_cons, a1, a2, a3, a4, b1, b2, b3, b4, c1, c2, c3, c4]

theorem keepFirst_remapped (t : String) (h1 : t ≠ "google/gemini-2.5-flash-image-preview")
    (h2 : t ≠ "google/gemini-2.5-flash") (h3 : t ≠ "google/gemini-2.5-pro")
    (h4 : t ≠ "google/gemini-flash-1.5") :
    keepFirstOccurrences
      ["google/gemini-2.5-flash-image-preview", t, "google/gemini-2.5-flash-image-preview",
       "google/gemini-2.5-flash", "google/gemini-2.5-pro", "google/gemini-flash-1.5"] =
      ["google/gemini-2.5-flash-image-preview", t, "google/gemini-2.5-flash",
       "google/gemini-2.5-pro", "google/gemini-flash-1.5"] := by
  have a1 : (t == "google/gemini-2.5-flash-image-preview") = false := by simpa using h1
  have a2 : (t == "google/gemini-2.5-flash") = false := by simpa using h2
  have a3 : (t == "google/gemini-2.5-pro") = false := by simpa using h3
  have a4 : (t == "google/gemini-flash-1.5") = false := by simpa using h4
  have b1 : ("google/gemini-2.5-flash-image-preview" == t) = false := by
    simpa using fun h => h1 h.symm
  have b2 : ("google/gemini-2.5-flash" == t) = false := by simpa using fun h => h2 h.symm
  have b3 : ("google/gemini-2.5-pro" == t) = false := by simpa using fun h => h3 h.symm
  have b4 : ("google/gemini-flash-1.5" == t) = false := by simpa using fun h => h4 h.symm
  simp [keepFirstOccurrences, List.enum, List.enumFrom, List.indexOf_cons,
    List.filter_cons, a1, a2, a3, a4, b1, b2, b3, b4]

theorem fallbackModels_valid : ∀ c ∈ fallbackModels, isInvalidModel c = false := by decide

/-- The candidate list in closed form: the trimmed effective model, when it is
not empty, then the fallbacks other than it in their order. -/
theorem candidateModels_eq (envModel : Option String) :
    candidateModels envModel =
      if sanitize (OPENROUTER_MODEL envModel) = "" then fallbackModels
      else sanitize (OPENROUTER_MODEL envModel) ::
        fallbackModels.filter (fun m => m != sanitize (OPENROUTER_MODEL envModel)) := by
  cases envModel with
  | none => decide
  | some s =>
    by_cases hs : s = ""
    · subst hs; decide
    have hs2 : (s != "") = true := by simpa using hs
    have hraw : RAW_OPENROUTER_MODEL (some s) = s := by
      simp [RAW_OPENROUTER_MODEL, orElse, hs2]
    have he : orElse (some s) "" = s := by simp [orElse, hs2]
    have hsan : sanitize s = jsTrim s := by simp [sanitize, hs2]
    have hsant : sanitize (jsTrim s) = jsTrim s := by
      unfold sanitize
      by_cases ht : (jsTrim s != "") = true
      · rw [if_pos ht, jsTrim_jsTrim]
      · rw [if_neg ht]
        have : jsTrim s = "" := by simpa using ht
        rw [this]
    simp only [candidateModels, he, hsan, hsant]
    by_cases hinv : isInvalidModel s = true
    · have hm : OPENROUTER_MODEL (some s) = defaultModel := by
        simp [OPENROUTER_MODEL, hraw, hinv]
      have hd : sanitize defaultModel = "google/gemini-2.5-flash-image-preview" := by decide
      have hti : isInvalidModel (jsTrim s) = true := by rw [isInvalidModel_jsTrim, hinv]
      have hne : jsTrim s ≠ "" := by
        intro h; rw [h] at hti; exact absurd hti (by decide)
      have hne2 : (jsTrim s != "") = true := by simpa using hne
      have hnf : ∀ c ∈ fallbackModels, jsTrim s ≠ c := by
        intro c hc h
        have := fallbackModels_valid c hc
        rw [← h, hti] at this
        exact Bool.noConfusion this
      have h1 := hnf "google/gemini-2.5-flash-image-preview" (by decide)
      have h2 := hnf "google/gemini-2.5-flash" (by decide)
      have h3 := hnf "google/gemini-2.5-pro" (by decide)
      have h4 := hnf "google/gemini-flash-1.5" (by decide)
      rw [hm, hd]
      have hf : List.filter (fun m : String => m != "")
          ["google/gemini-2.5-flash-image-preview", jsTrim s,
           "google/gemini-2.5-flash-image-preview", "google/gemini-2.5-flash",
           "google/gemini-2.5-pro", "google/gemini-flash-1.5"] =
          ["google/gemini-2.5-flash-image-preview", jsTrim s,
           "google/gemini-2.5-flash-image-preview", "google/gemini-2.5-flash",
           "google/gemini-2.5-pro", "google/gemini-flash-1.5"] := by
        simp [List.filter_cons, hne2]
      rw [hf, keepFirst_remapped _ h1 h2 h3 h4]
      have v1 : isInvalidModel "google/gemini-2.5-flash-image-preview" = false := by decide
      have v2 : isInvalidModel "google/gemini-2.5-flash" = false := by decide
      have v3 : isInvalidModel "google/gemini-2.5-pro" = false := by decide
      have v4 : isInvalidModel "google/gemini-flash-1.5" = false := by decide
      simp [List.filter_cons, hti, v1, v2, v3, v4, fallbackModels]
    · have hinv2 : isInvalidModel s = false := by simpa using hinv
      have hm : OPENROUTER_MODEL (some s) = s := by
        simp [OPENROUTER_MODEL, hraw, hinv2]
      have hti : isInvalidModel (jsTrim s) = false := by rw [isInvalidModel_jsTrim, hinv2]
      rw [hm, hsan]
      have v1 : isInvalidModel "google/gemini-2.5-flash-image-preview" = false := by decide
      have v2 : isInvalidModel "google/gemini-2.5-flash" = false := by decide
      have v3 : isInvalidModel "google/gemini-2.5-pro" = false := by decide
      have v4 : isInvalidModel "google/gemini-flash-1.5" = false := by decide
      by_cases ht : jsTrim s = ""
      · rw [ht]; decide
      · have ht2 : (jsTrim s != "") = true := by simpa using ht
        have hf : List.filter (fun m : String => m != "")
            [jsTrim s, jsTrim s,
             "google/gemini-2.5-flash-image-preview", "google/gemini-2.5-flash",
             "google/gemini-2.5-pro", "google/gemini-flash-1.5"] =
            [jsTrim s, jsTrim s,
             "google/gemini-2.5-flash-image-preview", "google/gemini-2.5-flash",
             "google/gemini-2.5-pro", "google/gemini-flash-1.5"] := by
          simp [List.filter_cons, ht2]
        rw [hf, keepFirst_configured, if_neg ht]
        have hall : ∀ c ∈ jsTrim s :: fallbackModels.filter (fun m => m != jsTrim s),
            (!isInvalidModel c) = true := by
          intro c hc
          rcases List.mem_cons.mp hc with h | h
          · rw [h, hti]; rfl
          · rw [fallbackModels_valid c (List.mem_of_mem_filter h)]; rfl
        exact List.filter_eq_self.mpr hall

theorem literal_rejects_astral (a : Atom) (x : Char) (ha : a.isLiteral = true)
    (hx : isBmp x = false) : a.accepts x = false := by
  cases a with
  | lit c =>
    simp only [Atom.isLiteral] at ha
    simp only [Atom.accepts]
    by_contra h
    have e : x = c := by simpa using h
    rw [e, ha] at hx
    exact Bool.noConfusion hx
  | ci c =>
    simp only [Atom.isLiteral, Bool.and_eq_true] at ha
    have hnu : ¬ (x.toNat ≥ 65 ∧ x.toNat ≤ 90) := by
      simp only [isBmp, decide_eq_false_iff_not, not_lt] at hx
      omega
    simp only [Atom.accepts, toLower_eq_of_not_upper x hnu]
    by_contra h
    have e : x = c.toLower := by simpa using h
    rw [e, ha.2] at hx
    exact Bool.noConfusion hx
  | dot => simp [Atom.isLiteral] at ha

theorem literal_rejects_halves (a : Atom) (ha : a.isLiteral = true) (n : Nat) :
    a.acceptsUnit (CodeUnit.high n) = false ∧ a.acceptsUnit (CodeUnit.low n) = false := by
  cases a with
  | lit c => exact ⟨rfl, rfl⟩
  | ci c => exact ⟨rfl, rfl⟩
  | dot => simp [Atom.isLiteral] at ha

theorem acceptsUnit_bmp (a : Atom) (x : Char) (hx : isBmp x = true) :
    a.acceptsUnit (CodeUnit.bmp x) = a.accepts x := by
  cases a with
  | lit c => rfl
  | ci c => rfl
  | dot => simp [Atom.acceptsUnit, Atom.accepts, hx]

theorem dotsGuarded_tail (a : Atom) (p : List Atom) (h : dotsGuarded (a :: p) = true) :
    dotsGuarded p = true := by
  cases a with
  | lit c => simp only [dotsGuarded, Bool.and_eq_true] at h; exact h.2
  | ci c => simp only [dotsGuarded, Bool.and_eq_true] at h; exact h.2
  | dot => simp only [dotsGuarded, Bool.and_eq_true] at h; exact h.2

/-- Matching by character is matching by code unit, for a pattern whose `.`
positions are each followed by a literal. -/
theorem matchUnitsHere_utf16Units :
    ∀ (p : List Atom), dotsGuarded p = true → ∀ t : List Char,
      matchUnitsHere p (utf16Units t) = matchHere p t := by
  intro p
  induction p with
  | nil => intro _ t; cases t <;> simp [matchUnitsHere, matchHere]
  | cons a p ih =>
    intro hg t
    have hp := dotsGuarded_tail a p hg
    cases t with
    | nil => rfl
    | cons x t =>
      by_cases hx : isBmp x = true
      · simp only [utf16Units, hx, if_true, matchUnitsHere, matchHere, acceptsUnit_bmp a x hx,
          ih hp t]
      · have hx2 : isBmp x = false := by simpa using hx
        simp only [utf16Units, hx2, Bool.false_eq_true, if_false, matchUnitsHere, matchHere]
        cases a with
        | lit c =>
          have hl : (Atom.lit c).isLiteral = true := by
            simp only [dotsGuarded, Bool.and_eq_true] at hg; exact hg.1
          rw [(literal_rejects_halves _ hl _).1, literal_rejects_astral _ x hl hx2]
          rfl
        | ci c =>
          have hl : (Atom.ci c).isLiteral = true := by
            simp only [dotsGuarded, Bool.and_eq_true] at hg; exact hg.1
          rw [(literal_rejects_halves _ hl _).1, literal_rejects_astral _ x hl hx2]
          rfl
        | dot =>
          cases p with
          | nil => simp [dotsGuarded] at hg
          | cons b r =>
            have hl : b.isLiteral = true := by
              simp only [dotsGuarded, Bool.and_eq_true] at hg; exact hg.1
            simp only [matchUnitsHere, (literal_rejects_halves b hl _).2, Atom.accepts, hx2,
              Bool.false_and, Bool.and_false]

/-- Searching by character is searching by code unit, for such a pattern that
starts with a literal. -/
theorem searchUnits_utf16Units (p : List Atom) (hg : dotsGuarded p = true)
    (hs : startsWithLiteral p = true) (l : List Char) :
    searchUnits p (utf16Units l) = searchFixed p l := by
  induction l with
  | nil =>
    have h := matchUnitsHere_utf16Units p hg []
    simpa [searchUnits, searchFixed, utf16Units] using h
  | cons x t ih =>
    have h := matchUnitsHere_utf16Units p hg (x :: t)
    by_cases hx : isBmp x = true
    · simp only [utf16Units, hx, if_true] at h ⊢
      simp only [searchUnits, searchFixed, h, ih]
    · have hx2 : isBmp x = false := by simpa using hx
      simp only [utf16Units, hx2, Bool.false_eq_true, if_false] at h ⊢
      cases p with
      | nil => simp [startsWithLiteral] at hs
      | cons a r =>
        have hl : a.isLiteral = true := by simpa [startsWithLiteral] using hs
        simp only [searchUnits, searchFixed, h, ih]
        simp only [matchUnitsHere, (literal_rejects_halves a hl _).2, Bool.false_and,
          Bool.false_or]

/-- The test of the known-invalid pattern on the code units of an identifier,
as the regular expression engine runs it, is `isInvalidModel`. -/
theorem isInvalidModel_eq_searchUnits (m : String) :
    isInvalidModel m = searchUnits invalidModelPattern (utf16Units m.data) :=
  (searchUnits_utf16Units invalidModelPattern (by decide) (by decide) m.data).symm

/-- An identifier with a character outside the Basic Multilingual Plane at the
`.` of the pattern does not match it (the `.` takes the first half of the pair
and `5` meets the second) and stays first in the candidate list; with a
character of the plane there it matches and is dropped. -/
theorem astral_wildcard_kept :
    isInvalidModel astralModel = false ∧
    candidateModels (some astralModel) = astralModel :: fallbackModels ∧
    isInvalidModel "gemini-flash-1x5-8b" = true ∧
    candidateModels (some "gemini-flash-1x5-8b") = fallbackModels := by
  decide

/-- C8, as stated, fails: for a blank configured model the trimmed effective
model is the empty string, while the list starts with the default model. -/
theorem blank_model_not_first :
    sanitize (OPENROUTER_MODEL (some "   ")) = "" ∧
    (candidateModels (some "   ")).head? = some "google/gemini-2.5-flash-image-preview" ∧
    (candidateModels (some "   ")).head? ≠ some (sanitize (OPENROUTER_MODEL (some "   "))) := by
  decide

/-- C8, amended: for every value of the configured model identifier the candidate
list has no duplicate and no identifier matching the known-invalid pattern; when
the trimmed effective configured model is not empty it is the first element and
the fixed fallbacks other than it follow in their fixed order; when it is empty
(a blank value) the list is the fixed fallback sequence. -/
theorem candidateModels_spec (envModel : Option String) :
    (candidateModels envModel).Nodup ∧
    (∀ c ∈ candidateModels envModel, isInvalidModel c = false) ∧
    (sanitize (OPENROUTER_MODEL envModel) ≠ "" →
      candidateModels envModel = sanitize (OPENROUTER_MODEL envModel) ::
        fallbackModels.filter (fun m => m != sanitize (OPENROUTER_MODEL envModel))) ∧
    (sanitize (OPENROUTER_MODEL envModel) = "" → candidateModels envModel = fallbackModels) := by
  have hv : ∀ c ∈ candidateModels envModel, isInvalidModel c = false := by
    intro c hc
    unfold candidateModels at hc
    have := (List.mem_filter.mp hc).2
    simpa using this
  have hfn : fallbackModels.Nodup := by decide
  refine ⟨?_, hv, ?_, ?_⟩
  · rw [candidateModels_eq]
    by_cases h : sanitize (OPENROUTER_MODEL envModel) = ""
    · rw [if_pos h]; exact hfn
    · rw [if_neg h]
      refine List.nodup_cons.mpr ⟨?_, hfn.filter _⟩
      intro hmem
      have := (List.mem_filter.mp hmem).2
      simp at this
  · intro h
    rw [candidateModels_eq, if_neg h]
  · intro h
    rw [candidateModels_eq, if_pos h]

/-- Witness of C8 on a padded identifier that is one of the fallbacks. -/
theorem candidateModels_spec_witness :
    candidateModels (some " google/gemini-2.5-pro ") =
      ["google/gemini-2.5-pro", "google/gemini-2.5-flash-image-preview",
       "google/gemini-2.5-flash", "google/gemini-flash-1.5"] :=
  ((candidateModels_spec (some " google/gemini-2.5-pro ")).2.2.1 (by decide)).trans (by decide)

/-! ### Provider gateway -/

theorem tryModel_spec (P : Provider) (m : String) (e : String) :
    (tryModel P m e).data = selectedPayload P m ∧
    (tryModel P m e).requests = requestsFor P m := by
  unfold tryModel selectedPayload requestsFor shapeSucceeds shapeFailsOther
  cases h1 : P m Shape.responses with
  | error msg => exact ⟨rfl, rfl⟩
  | ok r1 =>
    by_cases hu : r1.unusable = true
    · by_cases hn : r1.isNotFound = true
      · simp [hu, hn]
      · have hn2 : r1.isNotFound = false := by simpa using hn
        cases h2 : P m Shape.chat with
        | error msg => simp [hu, hn2]
        | ok r2 =>
          by_cases hu2 : r2.unusable = true
          · simp [hu, hn2, hu2]
          · have hu3 : r2.unusable = false := by simpa using hu2
            cases hj : r2.json with
            | ok d => simp [hu, hn2, hu3, finishAttempt, hj]
            | error msg => simp [hu, hn2, hu3, finishAttempt, hj]
    · have hu2 : r1.unusable = false := by simpa using hu
      cases hj : r1.json with
      | ok d => simp [hu2, finishAttempt, hj]
      | error msg => simp [hu2, finishAttempt, hj]

theorem gatewayLoop_skip (P : Provider) (c : String) (cs : List String) (e : String)
    (h : selectedPayload P c = none) :
    ∃ e2, (gatewayLoop P (c :: cs) e).data = (gatewayLoop P cs e2).data ∧
      (gatewayLoop P (c :: cs) e).usedModel = (gatewayLoop P cs e2).usedModel ∧
      (gatewayLoop P (c :: cs) e).requests = requestsFor P c ++ (gatewayLoop P cs e2).requests := by
  have hs := tryModel_spec P c e
  rw [h] at hs
  rcases ht : tryModel P c e with ⟨reqs, e2, dat⟩
  rw [ht] at hs
  simp only at hs
  obtain ⟨hd, hr⟩ := hs
  subst hd
  subst hr
  refine ⟨e2, ?_⟩
  simp [gatewayLoop, ht]

theorem gatewayLoop_stop (P : Provider) (c : String) (cs : List String) (e : String) (d : JVal)
    (h : selectedPayload P c = some d) :
    (gatewayLoop P (c :: cs) e).data = d ∧
      (gatewayLoop P (c :: cs) e).usedModel = some c ∧
      (gatewayLoop P (c :: cs) e).requests = requestsFor P c := by
  have hs := tryModel_spec P c e
  rw [h] at hs
  rcases ht : tryModel P c e with ⟨reqs, e2, dat⟩
  rw [ht] at hs
  simp only at hs
  obtain ⟨hd, hr⟩ := hs
  subst hd
  subst hr
  simp [gatewayLoop, ht]

theorem requestsFor_model (P : Provider) (c : String) :
    ∀ q ∈ requestsFor P c, q.1 = c := by
  intro q hq
  unfold requestsFor at hq
  split at hq
  · simp only [List.mem_cons, List.mem_singleton, List.mem_nil_iff, or_false] at hq
    rcases hq with h | h <;> rw [h]
  · simp only [List.mem_singleton] at hq
    rw [hq]

/-- C1: the gateway loop returns the payload of the first candidate, in list
order, for which Shape A succeeds, or Shape A fails with a failure other than not
found and Shape B succeeds; it records that candidate in `usedModel`, and the
requests it issues are exactly those of the candidates up to that one, so no
candidate after it is ever called.  When the payload is truthy the gateway hands
it to the extractor. -/
theorem gateway_selects_first (P : Provider) (pre post : List String) (m : String) (d : JVal)
    (hpre : ∀ c ∈ pre, selectedPayload P c = none) (hm : selectedPayload P m = some d) :
    ∀ e : String,
      (gatewayLoop P (pre ++ m :: post) e).data = d ∧
      (gatewayLoop P (pre ++ m :: post) e).usedModel = some m ∧
      (gatewayLoop P (pre ++ m :: post) e).requests = (pre ++ [m]).flatMap (requestsFor P) ∧
      (∀ q ∈ (gatewayLoop P (pre ++ m :: post) e).requests, q.1 ∈ pre ++ [m]) ∧
      (d.truthy = true → gateway P (pre ++ m :: post) = .ok d) := by
  have main : ∀ e : String,
      (gatewayLoop P (pre ++ m :: post) e).data = d ∧
      (gatewayLoop P (pre ++ m :: post) e).usedModel = some m ∧
      (gatewayLoop P (pre ++ m :: post) e).requests = (pre ++ [m]).flatMap (requestsFor P) := by
    induction pre with
    | nil =>
      intro e
      obtain ⟨h1, h2, h3⟩ := gatewayLoop_stop P m post e d hm
      refine ⟨h1, h2, ?_⟩
      rw [List.nil_append] at *
      rw [h3]
      simp [List.flatMap]
    | cons c pre ih =>
      intro e
      have hc : selectedPayload P c = none := hpre c (List.mem_cons_self _ _)
      obtain ⟨e2, h1, h2, h3⟩ := gatewayLoop_skip P c (pre ++ m :: post) e hc
      obtain ⟨i1, i2, i3⟩ := ih (fun x hx => hpre x (List.mem_cons_of_mem _ hx)) e2
      rw [List.cons_append, h1, h2, h3, i1, i2, i3]
      refine ⟨rfl, rfl, ?_⟩
      simp [List.flatMap]
  intro e
  obtain ⟨h1, h2, h3⟩ := main e
  refine ⟨h1, h2, h3, ?_, ?_⟩
  · intro q hq
    rw [h3, List.mem_flatMap] at hq
    obtain ⟨c, hc, hqc⟩ := hq
    rw [requestsFor_model P c q hqc]
    exact hc
  · intro ht
    unfold gateway
    simp only [(main "").1, ht, if_true]

/-- Witness of C1, the scenario of the specification: the third candidate is
not found, the fourth succeeds (on Shape B), and the fifth is never called. -/
theorem gateway_selects_first_witness :
    (gatewayLoop demoProvider ["m1", "m2", "m3", "m4", "m5"] "").usedModel = some "m4" ∧
    (gatewayLoop demoProvider ["m1", "m2", "m3", "m4", "m5"] "").data =
      JVal.obj [("model", JVal.str "m4")] ∧
    (gatewayLoop demoProvider ["m1", "m2", "m3", "m4", "m5"] "").requests =
      [("m1", Shape.responses), ("m2", Shape.responses), ("m2", Shape.chat),
       ("m3", Shape.responses), ("m4", Shape.responses), ("m4", Shape.chat)] ∧
    shapeNotFound demoProvider "m3" Shape.responses = true ∧
    (selectedPayload demoProvider "m5").isSome = true :=
  have h := gateway_selects_first demoProvider ["m1", "m2", "m3"] ["m5"] "m4"
    (JVal.obj [("model", JVal.str "m4")])
    (by
      intro c hc
      simp only [List.mem_cons, List.mem_singleton, List.mem_nil_iff, or_false] at hc
      rcases hc with h | h | h <;> subst h <;> rfl)
    rfl ""
  ⟨h.2.1, h.1, h.2.2.1.trans (by decide), by decide, rfl⟩

/-! ### Result extractor -/

theorem inertList_iff (xs : List JVal) :
    inertList xs = true ↔ ∀ x ∈ xs, inert x = true := by
  induction xs with
  | nil => simp [inertList]
  | cons x xs ih => simp [inertList, ih]

theorem inertFields_iff (kvs : List (String × JVal)) :
    inertFields kvs = true ↔
      ∀ p ∈ kvs, carrierKeys.contains p.1 = false ∧ inert p.2 = true := by
  induction kvs with
  | nil => simp [inertFields]
  | cons p kvs ih =>
    obtain ⟨k, v⟩ := p
    simp only [inertFields, Bool.and_eq_true, ih, List.mem_cons, forall_eq_or_imp,
      Bool.not_eq_true', and_assoc]

theorem lookup_cons_pair (k a : String) (b : JVal) (m : List (String × JVal)) :
    List.lookup k ((a, b) :: m) = if k = a then some b else List.lookup k m := by
  by_cases h : k = a
  · subst h; simp [List.lookup]
  · have h2 : (k == a) = false := by simpa using h
    simp [List.lookup, h2, h]

theorem lookup_mem (k : String) (w : JVal) (m : List (String × JVal))
    (h : List.lookup k m = some w) : (k, w) ∈ m := by
  induction m with
  | nil => simp [List.lookup] at h
  | cons p m ih =>
    obtain ⟨a, b⟩ := p
    rw [lookup_cons_pair] at h
    by_cases hk : k = a
    · rw [if_pos hk] at h
      have : b = w := by simpa using h
      rw [hk, this]
      exact List.mem_cons_self _ _
    · rw [if_neg hk] at h
      exact List.mem_cons_of_mem _ (ih h)

theorem lookup_append_cases (k : String) (b a : List (String × JVal)) (key : String) (v : JVal) :
    List.lookup k (b ++ (key, v) :: a) = List.lookup k b ∧ (List.lookup k b).isSome = true ∨
    (List.lookup k b = none ∧ k = key ∧ List.lookup k (b ++ (key, v) :: a) = some v) ∨
    (List.lookup k b = none ∧ k ≠ key ∧ List.lookup k (b ++ (key, v) :: a) = List.lookup k a) := by
  induction b with
  | nil =>
    by_cases hk : k = key
    · right; left
      exact ⟨rfl, hk, by rw [List.nil_append, lookup_cons_pair, if_pos hk]⟩
    · right; right
      exact ⟨rfl, hk, by rw [List.nil_append, lookup_cons_pair, if_neg hk]⟩
  | cons p b ih =>
    obtain ⟨x, y⟩ := p
    rw [List.cons_append, lookup_cons_pair, lookup_cons_pair]
    by_cases hx : k = x
    · left
      simp [hx]
    · simp only [if_neg hx]
      exact ih

theorem inertFields_lookup (kvs : List (String × JVal)) (h : inertFields kvs = true)
    (k : String) (w : JVal) (hl : List.lookup k kvs = some w) : inert w = true :=
  ((inertFields_iff kvs).mp h (k, w) (lookup_mem k w kvs hl)).2

theorem inertFields_carrier (kvs : List (String × JVal)) (h : inertFields kvs = true)
    (k : String) (hk : carrierKeys.contains k = true) : List.lookup k kvs = none := by
  cases hl : List.lookup k kvs with
  | none => rfl
  | some w =>
    have := ((inertFields_iff kvs).mp h (k, w) (lookup_mem k w kvs hl)).1
    simp only at this
    rw [hk] at this
    exact Bool.noConfusion this

/-- A carrier field is absent from an object whose fields are clean. -/
theorem clean_lookup_carrier (b a : List (String × JVal)) (key : String) (v : JVal)
    (hb : inertFields b = true) (ha : inertFields a = true)
    (hkey : carrierKeys.contains key = false) (k : String)
    (hk : carrierKeys.contains k = true) :
    List.lookup k (b ++ (key, v) :: a) = none := by
  rcases lookup_append_cases k b a key v with ⟨_, h2⟩ | ⟨_, h2, _⟩ | ⟨_, _, h3⟩
  · rw [inertFields_carrier b hb k hk] at h2
    exact Bool.noConfusion h2
  · rw [h2, hkey] at hk
    exact Bool.noConfusion hk
  · rw [h3]
    exact inertFields_carrier a ha k hk

theorem objectFields_none (P : Platform) (kvs : List (String × JVal))
    (h : ∀ k, carrierKeys.contains k = true → List.lookup k kvs = none) :
    objectFields P (JVal.obj kvs) = none := by
  have h1 := h "image_url" (by decide)
  have h2 := h "url" (by decide)
  have h3 := h "image_base64" (by decide)
  have h4 := h "b64_json" (by decide)
  have h5 := h "inline_data" (by decide)
  simp [objectFields, JVal.get, h1, h2, h3, h4, h5, asString?, truthy?]

theorem findSome_none {α β : Type} (f : α → Option β) (l : List α)
    (h : ∀ x ∈ l, f x = none) : l.findSome? f = none := by
  induction l with
  | nil => rfl
  | cons x l ih =>
    rw [List.findSome?_cons, h x (List.mem_cons_self _ _)]
    exact ih (fun y hy => h y (List.mem_cons_of_mem _ hy))

theorem findSome_middle {α β : Type} (f : α → Option β) (b a : List α) (x : α)
    (hb : ∀ y ∈ b, f y = none) (ha : ∀ y ∈ a, f y = none) :
    (b ++ x :: a).findSome? f = f x := by
  induction b with
  | nil =>
    rw [List.nil_append, List.findSome?_cons]
    cases hx : f x with
    | some v => rfl
    | none => exact findSome_none f a ha
  | cons y b ih =>
    rw [List.cons_append, List.findSome?_cons, hb y (List.mem_cons_self _ _)]
    exact ih (fun z hz => hb z (List.mem_cons_of_mem _ hz))

/-- The deep scan finds nothing in an inert value, at any depth. -/
theorem deepFindImageAux_inert (P : Platform) :
    ∀ (fuel : Nat) (v : JVal) (d : Nat), inert v = true → deepFindImageAux P fuel v d = none := by
  intro fuel
  induction fuel with
  | zero => intro v d _; rfl
  | succ fuel ih =>
    intro v d hv
    unfold deepFindImageAux
    split
    · rfl
    · cases v with
      | null => rfl
      | bool b => rfl
      | num n => rfl
      | str s =>
        simp only [inert, Bool.and_eq_true, Option.isNone_iff_eq_none, Bool.not_eq_true'] at hv
        obtain ⟨⟨⟨h1, _⟩, h3⟩, h4⟩ := hv
        simp only [h1, h3, h4]
        rfl
      | arr xs =>
        simp only [inert] at hv
        exact findSome_none _ xs (fun x hx => ih x (d + 1) ((inertList_iff xs).mp hv x hx))
      | obj kvs =>
        simp only [inert] at hv
        have ho : objectFields P (JVal.obj kvs) = none :=
          objectFields_none P kvs (fun k hk => inertFields_carrier kvs hv k hk)
        simp only [ho]
        exact findSome_none _ kvs
          (fun p hp => ih p.2 (d + 1) ((inertFields_iff kvs).mp hv p hp).2)

theorem deepValue_inert (P : Platform) (v : JVal) (hv : inert v = true) :
    deepValue P (some v) = none := by
  simp [deepValue, deepFindImage, deepFindImageAux_inert P _ v 0 hv]

theorem stringImageMsg_inert (s : String) (h : inert (JVal.str s) = true) :
    stringImageMsg s = none := by
  simp only [inert, Bool.and_eq_true, Option.isNone_iff_eq_none, Bool.not_eq_true'] at h
  obtain ⟨⟨⟨h1, h2⟩, _⟩, _⟩ := h
  simp [stringImageMsg, h1, h2]

theorem nonEmptyString_none : nonEmptyString? none = none := rfl

theorem truthy_none : truthy? none = false := rfl

/-- The loop body of `extractFromMessageContent` on an object without the fields
`image_url` and `url`: the text field decides. -/
theorem extractFromPart_obj (kvs : List (String × JVal))
    (h1 : List.lookup "image_url" kvs = none) (h2 : List.lookup "url" kvs = none) :
    extractFromPart (JVal.obj kvs) =
      match asString? (List.lookup "text" kvs) with
      | some tx => (stringImageMsg tx).map JVal.str
      | none => none := by
  unfold extractFromPart
  simp only [JVal.truthy, JVal.get, h1, h2, nonEmptyString_none, truthy_none,
    Bool.not_true, Bool.false_eq_true, if_false, Bool.false_and]
  generalize nonEmptyString? (List.lookup "type" kvs) = ty
  generalize asString? (List.lookup "text" kvs) = tx
  cases tx with
  | none => cases ty <;> rfl
  | some t =>
    cases hu : urlMatchMsg t with
    | some u =>
      cases ty with
      | none => simp [stringImageMsg, hu]
      | some y =>
        by_cases hi : jsIncludes y "image" = true
        · simp [stringImageMsg, hu, hi]
        · simp [stringImageMsg, hu, hi]
    | none =>
      cases ty with
      | none => simp [stringImageMsg, hu]
      | some y =>
        by_cases hi : jsIncludes y "image" = true
        · simp [stringImageMsg, hu, hi]
        · simp [stringImageMsg, hu, hi]

theorem extractFromPart_not_obj (v : JVal) (h : ∀ kvs, v ≠ JVal.obj kvs) :
    extractFromPart v = none := by
  cases v with
  | obj kvs => exact absurd rfl (h kvs)
  | null => rfl
  | bool b => cases b <;> rfl
  | num n =>
    unfold extractFromPart
    split
    · rfl
    · rfl
  | str s =>
    unfold extractFromPart
    split
    · rfl
    · rfl
  | arr xs => rfl

theorem extractFromPart_inert (v : JVal) (hv : inert v = true) : extractFromPart v = none := by
  cases v with
  | obj kvs =>
    simp only [inert] at hv
    rw [extractFromPart_obj kvs (inertFields_carrier kvs hv _ (by decide))
      (inertFields_carrier kvs hv _ (by decide))]
    cases hl : List.lookup "text" kvs with
    | none => rfl
    | some w =>
      have hw := inertFields_lookup kvs hv _ w hl
      cases w with
      | str tx => simp [asString?, stringImageMsg_inert tx hw]
      | null => rfl
      | bool b => rfl
      | num n => rfl
      | arr xs => rfl
      | obj k2 => rfl
  | null => exact extractFromPart_not_obj _ (by intro k h; cases h)
  | bool b => exact extractFromPart_not_obj _ (by intro k h; cases h)
  | num n => exact extractFromPart_not_obj _ (by intro k h; cases h)
  | str s => exact extractFromPart_not_obj _ (by intro k h; cases h)
  | arr xs => exact extractFromPart_not_obj _ (by intro k h; cases h)

theorem extractFromMessageContent_inert (v : JVal) (hv : inert v = true) :
    extractFromMessageContent (some v) = none := by
  unfold extractFromMessageContent
  simp only []
  split
  · rfl
  · cases v with
    | str s =>
      have h := stringImageMsg_inert s hv
      unfold stringImageMsg at h
      cases hu : urlMatchMsg s with
      | some u => rw [hu] at h; simp at h
      | none => rw [hu] at h; simp only at h; simp [h, hu]
    | arr xs =>
      simp only [inert] at hv
      exact findSome_none _ xs
        (fun x hx => extractFromPart_inert x ((inertList_iff xs).mp hv x hx))
    | null => rfl
    | bool b => rfl
    | num n => rfl
    | obj kvs => rfl

theorem probeContent_inert (P : Platform) (v : JVal) (hv : inert v = true) :
    probeContent P (some v) = none := by
  simp [probeContent, extractFromMessageContent_inert v hv, deepValue_inert P v hv]

theorem probeContent_none (P : Platform) : probeContent P none = none := rfl

theorem stringFound_nonempty (s : String) (f : Found) (hf : stringFound s = some f) :
    (JVal.str s).truthy = true := by
  have hne : s ≠ "" := by
    intro h
    rw [h] at hf
    have e : stringFound "" = none := by decide
    rw [e] at hf
    exact Option.noConfusion hf
  simpa [JVal.truthy] using hne

theorem deepFindImageAux_string (P : Platform) (s : String) (f : Found)
    (hf : stringFound s = some f) (fuel d : Nat) (hd : d ≤ 6) :
    deepFindImageAux P (fuel + 1) (JVal.str s) d = some f := by
  have ht := stringFound_nonempty s f hf
  have hd2 : ¬ d > 6 := by omega
  simp only [deepFindImageAux, ht, hd2, Bool.not_true, Bool.false_or, decide_False,
    Bool.false_eq_true, if_false]
  unfold stringFound at hf
  cases hm : dataUrlMatch s with
  | some m => rw [hm] at hf; exact hf
  | none =>
    rw [hm] at hf
    simp only at hf
    cases hu : urlMatchDeep s with
    | some u => rw [hu] at hf; exact hf
    | none => rw [hu] at hf; simp at hf

/-- The deep scan of a value nested under a clean path: the image is found
exactly when it sits at depth 6 or less. -/
theorem deepFindImageAux_nest (P : Platform) (s : String) (f : Found)
    (hf : stringFound s = some f) :
    ∀ (path : List Step), (∀ st ∈ path, st.clean = true) → ∀ (fuel d : Nat), 7 ≤ fuel + d →
      deepFindImageAux P fuel (nest path (JVal.str s)) d =
        if d + path.length ≤ 6 then some f else none := by
  intro path
  induction path with
  | nil =>
    intro _ fuel d hfd
    cases fuel with
    | zero =>
      have : ¬ d + ([] : List Step).length ≤ 6 := by simp; omega
      rw [if_neg this]; rfl
    | succ fuel =>
      by_cases hd : d ≤ 6
      · have : d + ([] : List Step).length ≤ 6 := by simpa using hd
        rw [if_pos this]
        exact deepFindImageAux_string P s f hf fuel d hd
      · have : ¬ d + ([] : List Step).length ≤ 6 := by simpa using hd
        rw [if_neg this]
        have hd2 : d > 6 := by omega
        simp [deepFindImageAux, nest, hd2]
  | cons st q ih =>
    intro hclean fuel d hfd
    have hq : ∀ x ∈ q, x.clean = true := fun x hx => hclean x (List.mem_cons_of_mem _ hx)
    have hst : st.clean = true := hclean st (List.mem_cons_self _ _)
    cases fuel with
    | zero =>
      have : ¬ d + (st :: q).length ≤ 6 := by simp; omega
      rw [if_neg this]; rfl
    | succ fuel =>
      by_cases hd : d ≤ 6
      · have hd2 : ¬ d > 6 := by omega
        have hrec := ih hq fuel (d + 1) (by omega)
        have hlen : (d + (st :: q).length ≤ 6) ↔ (d + 1 + q.length ≤ 6) := by
          simp only [List.length_cons]; omega
        cases st with
        | index b a =>
          simp only [Step.clean, Bool.and_eq_true] at hst
          simp only [nest, Step.wrap, deepFindImageAux, JVal.truthy, hd2, Bool.not_true,
            Bool.false_or, decide_False, Bool.false_eq_true, if_false]
          rw [findSome_middle _ b a (nest q (JVal.str s))
            (fun y hy => deepFindImageAux_inert P fuel y (d + 1) ((inertList_iff b).mp hst.1 y hy))
            (fun y hy => deepFindImageAux_inert P fuel y (d + 1) ((inertList_iff a).mp hst.2 y hy)),
            hrec]
          simp only [hlen]
        | field b k a =>
          simp only [Step.clean, Bool.and_eq_true, Bool.not_eq_true'] at hst
          have ho : objectFields P (JVal.obj (b ++ (k, nest q (JVal.str s)) :: a)) = none :=
            objectFields_none P _
              (fun κ hκ => clean_lookup_carrier b a k _ hst.1.1 hst.1.2 hst.2 κ hκ)
          simp only [nest, Step.wrap, deepFindImageAux, JVal.truthy, hd2, Bool.not_true,
            Bool.false_or, decide_False, Bool.false_eq_true, if_false, ho]
          rw [findSome_middle (fun kv : String × JVal => deepFindImageAux P fuel kv.2 (d + 1))
            b a (k, nest q (JVal.str s))
            (fun y hy => deepFindImageAux_inert P fuel y.2 (d + 1)
              ((inertFields_iff b).mp hst.1.1 y hy).2)
            (fun y hy => deepFindImageAux_inert P fuel y.2 (d + 1)
              ((inertFields_iff a).mp hst.1.2 y hy).2)]
          simp only [hrec, hlen]
      · have : ¬ d + (st :: q).length ≤ 6 := by simp only [List.length_cons]; omega
        rw [if_neg this]
        have hd2 : d > 6 := by omega
        cases st <;> simp [deepFindImageAux, nest, Step.wrap, hd2]

theorem deepValue_nest (P : Platform) (s : String) (f : Found) (hf : stringFound s = some f)
    (path : List Step) (hclean : ∀ st ∈ path, st.clean = true) :
    deepValue P (some (nest path (JVal.str s))) =
      if path.length ≤ 6 then some (JVal.str f.value) else none := by
  unfold deepValue deepFindImage
  simp only []
  rw [deepFindImageAux_nest P s f hf path hclean 7 0 (by omega)]
  by_cases h : path.length ≤ 6
  · simp [h]
  · simp [h]

theorem nest_cons_not_string (st : Step) (q : List Step) (v : JVal) :
    asString? (some (nest (st :: q) v)) = none := by
  cases st <;> rfl

theorem textOf_inert (w : JVal) (hw : inert w = true) :
    (match asString? (some w) with
      | some tx => (stringImageMsg tx).map JVal.str
      | none => none) = none := by
  cases w with
  | str tx => simp [asString?, stringImageMsg_inert tx hw]
  | null => rfl
  | bool b => rfl
  | num n => rfl
  | arr xs => rfl
  | obj k2 => rfl

/-- The loop body of `extractFromMessageContent` on a nested value: nothing, or
the image of the leaf. -/
theorem extractFromPart_nest (s m : String)
    (hmsg : stringImageMsg s = none ∨ stringImageMsg s = some m) (q : List Step)
    (hclean : ∀ st ∈ q, st.clean = true) :
    extractFromPart (nest q (JVal.str s)) = none ∨
      extractFromPart (nest q (JVal.str s)) = some (JVal.str m) := by
  cases q with
  | nil => left; exact extractFromPart_not_obj _ (by intro k h; cases h)
  | cons st q =>
    have hst : st.clean = true := hclean st (List.mem_cons_self _ _)
    cases st with
    | index b a => left; exact extractFromPart_not_obj _ (by intro k h; cases h)
    | field b k a =>
      simp only [Step.clean, Bool.and_eq_true, Bool.not_eq_true'] at hst
      simp only [nest, Step.wrap]
      rw [extractFromPart_obj _
        (clean_lookup_carrier b a k _ hst.1.1 hst.1.2 hst.2 _ (by decide))
        (clean_lookup_carrier b a k _ hst.1.1 hst.1.2 hst.2 _ (by decide))]
      rcases lookup_append_cases "text" b a k (nest q (JVal.str s)) with
        ⟨h1, h2⟩ | ⟨_, _, h3⟩ | ⟨_, _, h3⟩
      · rw [h1]
        obtain ⟨w, hw⟩ := Option.isSome_iff_exists.mp h2
        rw [hw]
        left
        exact textOf_inert w (inertFields_lookup b hst.1.1 _ w hw)
      · rw [h3]
        cases q with
        | nil =>
          simp only [nest, asString?]
          rcases hmsg with h | h
          · left; rw [h]; rfl
          · right; rw [h]; rfl
        | cons st2 q2 =>
          left
          rw [nest_cons_not_string]
      · rw [h3]
        cases hl : List.lookup "text" a with
        | none => left; rfl
        | some w =>
          left
          exact textOf_inert w (inertFields_lookup a hst.1.2 _ w hl)

/-- The targeted scan on a nested value: nothing, or the image of the leaf. -/
theorem extractFromMessageContent_nest (s m : String) (f : Found)
    (hf : stringFound s = some f)
    (hmsg : stringImageMsg s = none ∨ stringImageMsg s = some m) (q : List Step)
    (hclean : ∀ st ∈ q, st.clean = true) :
    extractFromMessageContent (some (nest q (JVal.str s))) = none ∨
      extractFromMessageContent (some (nest q (JVal.str s))) = some (JVal.str m) := by
  cases q with
  | nil =>
    have ht := stringFound_nonempty s f hf
    have e : extractFromMessageContent (some (JVal.str s)) =
        (stringImageMsg s).map JVal.str := by
      unfold extractFromMessageContent stringImageMsg
      simp only [ht, Bool.not_true, Bool.false_eq_true, if_false]
      cases urlMatchMsg s <;> rfl
    simp only [nest]
    rw [e]
    rcases hmsg with h | h
    · left; rw [h]; rfl
    · right; rw [h]; rfl
  | cons st q =>
    have hst : st.clean = true := hclean st (List.mem_cons_self _ _)
    have hq : ∀ x ∈ q, x.clean = true := fun x hx => hclean x (List.mem_cons_of_mem _ hx)
    cases st with
    | index b a =>
      simp only [Step.clean, Bool.and_eq_true] at hst
      have e : extractFromMessageContent (some (nest (Step.index b a :: q) (JVal.str s))) =
          extractFromPart (nest q (JVal.str s)) := by
        simp only [nest, Step.wrap, extractFromMessageContent, JVal.truthy, Bool.not_true,
          Bool.false_eq_true, if_false]
        exact findSome_middle _ b a _
          (fun y hy => extractFromPart_inert y ((inertList_iff b).mp hst.1 y hy))
          (fun y hy => extractFromPart_inert y ((inertList_iff a).mp hst.2 y hy))
      rw [e]
      exact extractFromPart_nest s m hmsg q hq
    | field b k a => left; rfl

/-- The probe of a content value that is a nested value within reach of the
deep scan: the image of the leaf. -/
theorem probeContent_nest (P : Platform) (s : String) (f : Found)
    (hf : stringFound s = some f)
    (hmsg : stringImageMsg s = none ∨ stringImageMsg s = some f.value) (q : List Step)
    (hclean : ∀ st ∈ q, st.clean = true) (hlen : q.length ≤ 6) :
    probeContent P (some (nest q (JVal.str s))) = some (JVal.str f.value) := by
  unfold probeContent
  rcases extractFromMessageContent_nest s f.value f hf hmsg q hclean with h | h
  · rw [h]
    simp only []
    rw [deepValue_nest P s f hf q hclean, if_pos hlen]
  · rw [h]

theorem Dull.quiet {x : Option JVal} (h : Dull x) : Quiet x :=
  fun w hw => Or.inl (h w hw)

theorem dull_none : Dull none := fun _ h => Option.noConfusion h

theorem inert_get (w : JVal) (hw : inert w = true) (k : String) : Dull (w.get k) := by
  intro v hv
  cases w with
  | obj kvs =>
    simp only [inert] at hw
    exact inertFields_lookup kvs hw k v hv
  | null => cases hv
  | bool b => cases hv
  | num n => cases hv
  | str t => cases hv
  | arr xs => cases hv

theorem inert_at0 (w : JVal) (hw : inert w = true) : Quiet w.at0 := by
  intro v hv
  cases w with
  | obj kvs =>
    simp only [inert] at hw
    exact Or.inl (inertFields_lookup kvs hw "0" v hv)
  | arr xs =>
    simp only [inert] at hw
    cases xs with
    | nil => cases hv
    | cons y ys =>
      simp only [JVal.at0, List.head?_cons, Option.some.injEq] at hv
      rw [← hv]
      exact Or.inl ((inertList_iff (y :: ys)).mp hw y (List.mem_cons_self _ _))
  | str t =>
    right
    simp only [JVal.at0] at hv
    split at hv
    · cases hv
    · exact ⟨_, (Option.some.inj hv).symm⟩
  | null => cases hv
  | bool b => cases hv
  | num n => cases hv

theorem string_at0 (t : String) : Quiet (JVal.str t).at0 := by
  intro v hv
  right
  simp only [JVal.at0] at hv
  split at hv
  · cases hv
  · exact ⟨_, (Option.some.inj hv).symm⟩

/-- A field read on a nested value gives nothing, an inert sibling, or the value
one level down. -/
theorem nest_get (q : List Step) (v : JVal) (hv : ∀ k, v.get k = none)
    (hclean : ∀ st ∈ q, st.clean = true) (k : String) :
    Dull ((nest q v).get k) ∨ (q ≠ [] ∧ (nest q v).get k = some (nest q.tail v)) := by
  cases q with
  | nil => left; simp only [nest, hv k]; exact dull_none
  | cons st q =>
    have hst : st.clean = true := hclean st (List.mem_cons_self _ _)
    cases st with
    | index b a => left; exact dull_none
    | field b key a =>
      simp only [Step.clean, Bool.and_eq_true, Bool.not_eq_true'] at hst
      simp only [nest, Step.wrap, JVal.get, List.tail_cons]
      rcases lookup_append_cases k b a key (nest q v) with ⟨h1, _⟩ | ⟨_, _, h3⟩ | ⟨_, _, h3⟩
      · left
        rw [h1]
        exact fun w hw => inertFields_lookup b hst.1.1 k w hw
      · right
        exact ⟨by simp, h3⟩
      · left
        rw [h3]
        exact fun w hw => inertFields_lookup a hst.1.2 k w hw

/-- An index read on a nested value gives nothing, an inert sibling, a string,
or the value one level down. -/
theorem nest_at0 (q : List Step) (s : String)
    (hclean : ∀ st ∈ q, st.clean = true) :
    Quiet (nest q (JVal.str s)).at0 ∨
      (q ≠ [] ∧ (nest q (JVal.str s)).at0 = some (nest q.tail (JVal.str s))) := by
  cases q with
  | nil => left; exact string_at0 s
  | cons st q =>
    have hst : st.clean = true := hclean st (List.mem_cons_self _ _)
    cases st with
    | index b a =>
      simp only [Step.clean, Bool.and_eq_true] at hst
      cases b with
      | nil => right; exact ⟨by simp, rfl⟩
      | cons y ys =>
        left
        intro w hw
        simp only [nest, Step.wrap, JVal.at0, List.cons_append, List.head?_cons,
          Option.some.injEq] at hw
        rw [← hw]
        exact Or.inl ((inertList_iff (y :: ys)).mp hst.1 y (List.mem_cons_self _ _))
    | field b key a =>
      simp only [Step.clean, Bool.and_eq_true, Bool.not_eq_true'] at hst
      simp only [nest, Step.wrap, JVal.at0, List.tail_cons]
      rcases lookup_append_cases "0" b a key (nest q (JVal.str s)) with
        ⟨h1, _⟩ | ⟨_, _, h3⟩ | ⟨_, _, h3⟩
      · left
        rw [h1]
        exact fun w hw => Or.inl (inertFields_lookup b hst.1.1 _ w hw)
      · right
        exact ⟨by simp, h3⟩
      · left
        rw [h3]
        exact fun w hw => Or.inl (inertFields_lookup a hst.1.2 _ w hw)

theorem clean_tail (q : List Step) (h : ∀ st ∈ q, st.clean = true) :
    ∀ st ∈ q.tail, st.clean = true :=
  fun st hst => h st (List.mem_of_mem_tail hst)

theorem quiet_get (x : Option JVal) (hq : Quiet x) (k : String) :
    Dull (x.bind (fun w => w.get k)) := by
  cases x with
  | none => exact dull_none
  | some w =>
    rcases hq w rfl with hw | ⟨t, ht⟩
    · exact inert_get w hw k
    · rw [ht]; exact dull_none

theorem quiet_at0 (x : Option JVal) (hq : Quiet x) : Quiet (x.bind JVal.at0) := by
  cases x with
  | none => exact dull_none.quiet
  | some w =>
    rcases hq w rfl with hw | ⟨t, ht⟩
    · exact inert_at0 w hw
    · rw [ht]; exact string_at0 t

/-- A field read through a quiet value or a nested value. -/
theorem step_get (q : List Step) (s : String) (hclean : ∀ st ∈ q, st.clean = true)
    (x : Option JVal) (hx : Quiet x ∨ x = some (nest q (JVal.str s))) (k : String) :
    Dull (x.bind (fun w => w.get k)) ∨
      x.bind (fun w => w.get k) = some (nest q.tail (JVal.str s)) := by
  rcases hx with hq | hx
  · left
    cases x with
    | none => exact dull_none
    | some w =>
      rcases hq w rfl with hw | ⟨t, ht⟩
      · exact inert_get w hw k
      · rw [ht]; exact dull_none
  · rw [hx]
    rcases nest_get q (JVal.str s) (fun _ => rfl) hclean k with h | ⟨_, h⟩
    · exact Or.inl h
    · exact Or.inr h

/-- An index read through a quiet value or a nested value. -/
theorem step_at0 (q : List Step) (s : String) (hclean : ∀ st ∈ q, st.clean = true)
    (x : Option JVal) (hx : Quiet x ∨ x = some (nest q (JVal.str s))) :
    Quiet (x.bind JVal.at0) ∨ x.bind JVal.at0 = some (nest q.tail (JVal.str s)) := by
  rcases hx with hq | hx
  · left
    cases x with
    | none => exact dull_none.quiet
    | some w =>
      rcases hq w rfl with hw | ⟨t, ht⟩
      · exact inert_at0 w hw
      · rw [ht]; exact string_at0 t
  · rw [hx]
    rcases nest_at0 q s hclean with h | ⟨_, h⟩
    · exact Or.inl h
    · exact Or.inr h

theorem probeContent_dull (P : Platform) (x : Option JVal) (h : Dull x) :
    probeContent P x = none := by
  cases x with
  | none => rfl
  | some w => exact probeContent_inert P w (h w rfl)

theorem get?_eq_bind (x : Option JVal) (k : String) :
    get? x k = x.bind (fun w => w.get k) := by
  cases x <;> rfl

/-- The message the first probe reads is absent or `data.choices[0].message`. -/
theorem choicesMessage_cases (data : JVal) :
    choicesMessage data = none ∨
      choicesMessage data =
        ((data.get "choices").bind JVal.at0).bind (fun w => w.get "message") := by
  unfold choicesMessage
  split
  · cases hc : data.get "choices" with
    | none => left; rfl
    | some ch =>
      simp only []
      split
      · right
        rw [get?_eq_bind]
        rfl
      · left; rfl
  · left; rfl

/-- The first probe finds nothing or what the probe of
`data.choices[0].message.content` finds. -/
theorem probeChoices_cases (P : Platform) (data : JVal) :
    probeChoices P data = none ∨
      probeChoices P data = probeContent P
        ((((data.get "choices").bind JVal.at0).bind (fun w => w.get "message")).bind
          (fun w => w.get "content")) := by
  unfold probeChoices
  rcases choicesMessage_cases data with h | h
  · left; rw [h]
  · cases hm : choicesMessage data with
    | none => left; rfl
    | some msg =>
      right
      rw [← h, hm]
      rfl

/-- The content the second probe reads is absent or `data.output[0].content`. -/
theorem outputContent_cases (data : JVal) :
    outputContent data = none ∨
      outputContent data =
        ((data.get "output").bind JVal.at0).bind (fun w => w.get "content") := by
  unfold outputContent
  split
  · rename_i out hout
    rw [hout]
    simp only [Option.some_bind, JVal.at0]
    split
    · rw [get?_eq_bind]
      split
      · rename_i c hc
        right; rw [hc]
      · left; rfl
    · left; rfl
  · left; rfl

/-- The second probe keeps `r1`, or finds what the probe of
`data.output[0].content` finds. -/
theorem probeOutput_cases (P : Platform) (data : JVal) (r1 : Option JVal) :
    probeOutput P data r1 = r1 ∨
      probeOutput P data r1 = probeContent P
        (((data.get "output").bind JVal.at0).bind (fun w => w.get "content")) := by
  unfold probeOutput
  split
  · cases ho : outputContent data with
    | none => left; rfl
    | some c =>
      right
      rcases outputContent_cases data with h | h
      · rw [h] at ho; cases ho
      · rw [← h, ho]
  · left; rfl

theorem length_tail_le (q : List Step) : q.tail.length ≤ q.length := by
  rw [List.length_tail]; omega

/-- Both probes on a nested value whose leaf is within reach: each finds nothing
or the image of the leaf. -/
theorem probes_nest (P : Platform) (s : String) (f : Found) (hf : stringFound s = some f)
    (hmsg : stringImageMsg s = none ∨ stringImageMsg s = some f.value) (path : List Step)
    (hclean : ∀ st ∈ path, st.clean = true) (hlen : path.length ≤ 6) :
    (probeChoices P (nest path (JVal.str s)) = none ∨
      probeChoices P (nest path (JVal.str s)) = some (JVal.str f.value)) ∧
    ∀ r1, (probeOutput P (nest path (JVal.str s)) r1 = r1 ∨
      probeOutput P (nest path (JVal.str s)) r1 = none ∨
      probeOutput P (nest path (JVal.str s)) r1 = some (JVal.str f.value)) := by
  have c1 := clean_tail path hclean
  have c2 := clean_tail _ c1
  have c3 := clean_tail _ c2
  have c4 := clean_tail _ c3
  have l1 := length_tail_le path
  have l2 := length_tail_le path.tail
  have l3 := length_tail_le path.tail.tail
  have l4 := length_tail_le path.tail.tail.tail
  have content_ok : ∀ (q : List Step) (x : Option JVal), (∀ st ∈ q, st.clean = true) →
      q.length ≤ 6 → (Dull x ∨ x = some (nest q (JVal.str s))) →
      probeContent P x = none ∨ probeContent P x = some (JVal.str f.value) := by
    intro q x hq hl hx
    rcases hx with h | h
    · left; exact probeContent_dull P x h
    · right; rw [h]; exact probeContent_nest P s f hf hmsg q hq hl
  constructor
  · rcases probeChoices_cases P (nest path (JVal.str s)) with h | h
    · left; exact h
    · rw [h]
      have h1 := step_get path s hclean (some (nest path (JVal.str s))) (Or.inr rfl) "choices"
      simp only [Option.some_bind] at h1
      have h2 := step_at0 path.tail s c1 _ (h1.imp Dull.quiet id)
      have h3 := step_get path.tail.tail s c2 _ h2 "message"
      have h4 := step_get path.tail.tail.tail s c3 _ (h3.imp Dull.quiet id) "content"
      exact content_ok _ _ c4 (by omega) h4
  · intro r1
    rcases probeOutput_cases P (nest path (JVal.str s)) r1 with h | h
    · left; exact h
    · right
      rw [h]
      have h1 := step_get path s hclean (some (nest path (JVal.str s))) (Or.inr rfl) "output"
      simp only [Option.some_bind] at h1
      have h2 := step_at0 path.tail s c1 _ (h1.imp Dull.quiet id)
      have h3 := step_get path.tail.tail s c2 _ h2 "content"
      exact content_ok _ _ c3 (by omega) h3

/-- A field read at the root of a payload whose path does not start at that
field gives nothing or an inert sibling. -/
theorem root_get_dull (path : List Step) (s : String) (hclean : ∀ st ∈ path, st.clean = true)
    (k : String)
    (hk : ∀ b key a rest, path = Step.field b key a :: rest → key ≠ k) :
    Dull ((nest path (JVal.str s)).get k) := by
  cases path with
  | nil => exact dull_none
  | cons st q =>
    have hst : st.clean = true := hclean st (List.mem_cons_self _ _)
    cases st with
    | index b a => exact dull_none
    | field b key a =>
      simp only [Step.clean, Bool.and_eq_true, Bool.not_eq_true'] at hst
      simp only [nest, Step.wrap, JVal.get]
      rcases lookup_append_cases k b a key (nest q (JVal.str s)) with
        ⟨h1, _⟩ | ⟨_, h2, _⟩ | ⟨_, _, h3⟩
      · rw [h1]
        exact fun w hw => inertFields_lookup b hst.1.1 k w hw
      · exact absurd h2.symm (hk b key a q rfl)
      · rw [h3]
        exact fun w hw => inertFields_lookup a hst.1.2 k w hw

/-- Both probes find nothing on a payload whose path does not start at the
top-level field `choices` or `output`. -/
theorem probes_off_path (P : Platform) (s : String) (path : List Step)
    (hclean : ∀ st ∈ path, st.clean = true) (hoff : notUnderProbe path = true) :
    probeChoices P (nest path (JVal.str s)) = none ∧
    probeOutput P (nest path (JVal.str s)) none = none := by
  have hkeys : ∀ b key a rest, path = Step.field b key a :: rest →
      key ≠ "choices" ∧ key ≠ "output" := by
    intro b key a rest hp
    rw [hp] at hoff
    simpa [notUnderProbe] using hoff
  have hc : Dull ((nest path (JVal.str s)).get "choices") :=
    root_get_dull path s hclean "choices" (fun b key a rest hp => (hkeys b key a rest hp).1)
  have ho : Dull ((nest path (JVal.str s)).get "output") :=
    root_get_dull path s hclean "output" (fun b key a rest hp => (hkeys b key a rest hp).2)
  constructor
  · rcases probeChoices_cases P (nest path (JVal.str s)) with h | h
    · exact h
    · rw [h]
      exact probeContent_dull P _
        (quiet_get _ (quiet_get _ (quiet_at0 _ hc.quiet) "message").quiet "content")
  · rcases probeOutput_cases P (nest path (JVal.str s)) none with h | h
    · exact h
    · rw [h]
      exact probeContent_dull P _ (quiet_get _ (quiet_at0 _ ho.quiet) "content")

/-- C2, as stated, fails: an image nested at depth 8 is returned by the Result
Extractor when its path runs through `choices[0].message.content`, because the
probe of that content starts its own deep scan at depth 0. -/
theorem deep_image_found_by_probe :
    pathUnderChoices.length = 8 ∧
    (∀ st ∈ pathUnderChoices, st.clean = true) ∧
    stringFound tinyImage = some ⟨Kind.dataUrl, tinyImage⟩ ∧
    deepFindImage idlePlatform (nest pathUnderChoices (JVal.str tinyImage)) 0 = none ∧
    extractResult idlePlatform (nest pathUnderChoices (JVal.str tinyImage)) =
      some (JVal.str tinyImage) := by
  refine ⟨rfl, ?_, by decide, by decide, rfl⟩
  intro st hst
  simp only [pathUnderChoices, List.mem_cons, List.mem_singleton, List.mem_nil_iff,
    or_false] at hst
  rcases hst with h | h | h | h | h | h | h | h <;> subst h <;> rfl

/-- C2, amended: for a payload whose only image is a string nested under arrays
and objects (siblings without image, field names other than the carrier fields),
the Result Extractor returns the image when it sits at depth 5, indeed at any
depth up to 6; the deep scan of the whole payload finds no image at depth 8,
indeed at any depth from 7 on; and the Result Extractor reports no image at such
a depth when the path does not start at the top-level field `choices` or
`output`, whose probes restart the depth count. -/
theorem extractor_depth_bound (P : Platform) (path : List Step) (s : String) (f : Found)
    (hclean : ∀ st ∈ path, st.clean = true) (hf : stringFound s = some f)
    (hmsg : stringImageMsg s = none ∨ stringImageMsg s = some f.value) :
    (path.length ≤ 6 → extractResult P (nest path (JVal.str s)) = some (JVal.str f.value)) ∧
    (7 ≤ path.length → deepFindImage P (nest path (JVal.str s)) 0 = none) ∧
    (7 ≤ path.length → notUnderProbe path = true →
      extractResult P (nest path (JVal.str s)) = none) := by
  refine ⟨?_, ?_, ?_⟩
  · intro hlen
    obtain ⟨h1, h2⟩ := probes_nest P s f hf hmsg path hclean hlen
    have hd : deepValue P (some (nest path (JVal.str s))) = some (JVal.str f.value) := by
      rw [deepValue_nest P s f hf path hclean, if_pos hlen]
    have hr2 : probeOutput P (nest path (JVal.str s)) (probeChoices P (nest path (JVal.str s))) =
          none ∨
        probeOutput P (nest path (JVal.str s)) (probeChoices P (nest path (JVal.str s))) =
          some (JVal.str f.value) := by
      rcases h2 (probeChoices P (nest path (JVal.str s))) with h | h | h
      · rw [h]; exact h1
      · exact Or.inl h
      · exact Or.inr h
    unfold extractResult
    rcases hr2 with h | h
    · rw [h]
      simp only [truthy?, Bool.not_false, if_true]
      rw [hd]
    · rw [h]
      split
      · rw [hd]
      · rfl
  · intro hlen
    unfold deepFindImage
    rw [deepFindImageAux_nest P s f hf path hclean (7 - 0) 0 (by omega)]
    have : ¬ 0 + path.length ≤ 6 := by omega
    rw [if_neg this]
  · intro hlen hoff
    obtain ⟨h1, h2⟩ := probes_off_path P s path hclean hoff
    have hd : deepValue P (some (nest path (JVal.str s))) = none := by
      rw [deepValue_nest P s f hf path hclean]
      have : ¬ path.length ≤ 6 := by omega
      rw [if_neg this]
    unfold extractResult
    rw [h1, h2]
    simp only [truthy?, Bool.not_false, if_true]
    rw [hd]

/-- Witness of C2: an image at depth 5 is returned, an image under eight arrays
is not found. -/
theorem extractor_depth_bound_witness :
    extractResult idlePlatform (nest pathDepth5 (JVal.str tinyImage)) =
      some (JVal.str tinyImage) ∧
    extractResult idlePlatform (nest pathDepth8 (JVal.str tinyImage)) = none :=
  ⟨(extractor_depth_bound idlePlatform pathDepth5 tinyImage ⟨Kind.dataUrl, tinyImage⟩
      (by
        intro st hst
        simp only [pathDepth5, List.mem_cons, List.mem_singleton, List.mem_nil_iff,
          or_false] at hst
        rcases hst with h | h | h | h | h <;> subst h <;> rfl)
      (by decide) (Or.inr (by decide))).1 (by decide),
   (extractor_depth_bound idlePlatform pathDepth8 tinyImage ⟨Kind.dataUrl, tinyImage⟩
      (by
        intro st hst
        simp only [pathDepth8, List.replicate, List.mem_cons, List.mem_singleton,
          List.mem_nil_iff, or_false, or_self] at hst
        subst hst
        rfl)
      (by decide) (Or.inr (by decide))).2.2 (by decide) rfl⟩

/-- C9, as stated, fails: on a string that holds both a data URI and an image
URL, the targeted probe of `choices[0].message.content` returns the URL, and so
does the Result Extractor as a whole. -/
theorem url_wins_in_message_content :
    dataUrlMatch urlThenDataUri = some "data:image/png;base64,AAAA" ∧
    urlMatchMsg urlThenDataUri = some "https://cdn.example.com/out.png" ∧
    asString? (extractFromMessageContent (some (JVal.str urlThenDataUri))) =
      some "https://cdn.example.com/out.png" ∧
    asString? (extractResult idlePlatform
      (JVal.obj [("choices", JVal.arr [JVal.obj [("message",
        JVal.obj [("content", JVal.str urlThenDataUri)])]])])) =
      some "https://cdn.example.com/out.png" := by
  decide

theorem dataUrlMatch_nonempty (s m : String) (h : dataUrlMatch s = some m) :
    (JVal.str s).truthy = true := by
  have hne : s ≠ "" := by
    intro e
    rw [e] at h
    have e2 : dataUrlMatch "" = none := by decide
    rw [e2] at h
    exact Option.noConfusion h
  simpa [JVal.truthy] using hne

theorem firstMatch_some (f : List Char → Option (List Char)) (l x : List Char)
    (h : firstMatch f l = some x) : ∃ t, f t = some x := by
  induction l with
  | nil => exact ⟨[], h⟩
  | cons c l ih =>
    simp only [firstMatch] at h
    cases hf : f (c :: l) with
    | some m => rw [hf] at h; exact ⟨c :: l, hf.trans h⟩
    | none => rw [hf] at h; exact ih h

theorem runThenExt_ne_nil (exts : List String) (r m : List Char)
    (h : runThenExt exts r = some m) : m ≠ [] := by
  cases r with
  | nil => simp [runThenExt] at h
  | cons x t =>
    simp only [runThenExt] at h
    split at h
    · cases h
    · split at h
      · intro e; rw [e] at h; cases h
      · cases he : extHere exts t with
        | none => rw [he] at h; cases h
        | some e =>
          rw [he] at h
          intro hm
          rw [hm] at h
          cases h

theorem urlMatchMsg_nonempty (s u : String) (h : urlMatchMsg s = some u) : u ≠ "" := by
  unfold urlMatchMsg at h
  cases hm : firstMatch (urlHere ["jpg", "jpeg", "png", "webp"]) s.data with
  | none => rw [hm] at h; cases h
  | some x =>
    rw [hm] at h
    obtain ⟨t, ht⟩ := firstMatch_some _ _ _ hm
    unfold urlHere at ht
    cases hs : dropScheme t with
    | none => rw [hs] at ht; cases ht
    | some r =>
      rw [hs] at ht
      simp only at ht
      cases hr : runThenExt ["jpg", "jpeg", "png", "webp"] r with
      | none => rw [hr] at ht; cases ht
      | some m =>
        rw [hr] at ht
        have hne := runThenExt_ne_nil _ _ _ hr
        have hx : x = List.take (t.length - r.length) t ++ m := by
          simpa using ht.symm
        have hx2 : x ≠ [] := by
          rw [hx]
          intro e
          exact hne (List.append_eq_nil.mp e).2
        intro hu
        have e : u = String.mk x := by simpa using h.symm
        rw [e] at hu
        exact hx2 (congrArg String.data hu)

/-- The Result Extractor on a chat payload whose message content is a string in
which the targeted scan finds a value: that value. -/
theorem extractResult_string_content (P : Platform) (s u : String)
    (he : extractFromMessageContent (some (JVal.str s)) = some (JVal.str u)) (hu : u ≠ "") :
    extractResult P (JVal.obj [("choices", JVal.arr [JVal.obj [("message",
      JVal.obj [("content", JVal.str s)])]])]) = some (JVal.str u) := by
  have hu2 : (JVal.str u).truthy = true := by simpa [JVal.truthy] using hu
  have h1 : probeChoices P (JVal.obj [("choices", JVal.arr [JVal.obj [("message",
      JVal.obj [("content", JVal.str s)])]])]) = some (JVal.str u) := by
    have hc : choicesMessage (JVal.obj [("choices", JVal.arr [JVal.obj [("message",
        JVal.obj [("content", JVal.str s)])]])]) =
        some (JVal.obj [("content", JVal.str s)]) := by
      simp [choicesMessage, JVal.get, JVal.at0, JVal.truthy, truthy?, get?, List.lookup]
    unfold probeChoices
    rw [hc]
    have hg : (JVal.obj [("content", JVal.str s)]).get "content" = some (JVal.str s) := by
      simp [JVal.get, List.lookup]
    simp only [hg, probeContent, he]
  have h2 : ∀ data, probeOutput P data (some (JVal.str u)) = some (JVal.str u) := by
    intro data
    simp [probeOutput, truthy?, hu2]
  unfold extractResult
  rw [h1, h2]
  simp [truthy?, hu2]

/-- C9, amended: on a string that holds a data URI, `deepFindImage` returns the
data URI whether or not the string also holds an image URL; the targeted scan
`extractFromMessageContent` tests the URL pattern first, so on a string content
or a text part it returns the image URL when there is one (extension jpg, jpeg,
png or webp) and the data URI only when there is none; and for such a string at
`choices[0].message.content` the Result Extractor as a whole returns that URL. -/
theorem string_precedence (P : Platform) (s m : String) (hd : dataUrlMatch s = some m) :
    (∀ depth, depth ≤ 6 → deepFindImage P (JVal.str s) depth = some ⟨Kind.dataUrl, m⟩) ∧
    (∀ u, urlMatchMsg s = some u →
      extractFromMessageContent (some (JVal.str s)) = some (JVal.str u) ∧
      ∀ ty : String, extractFromPart (JVal.obj [("type", JVal.str ty), ("text", JVal.str s)]) =
        some (JVal.str u)) ∧
    (urlMatchMsg s = none →
      extractFromMessageContent (some (JVal.str s)) = some (JVal.str m) ∧
      ∀ ty : String, extractFromPart (JVal.obj [("type", JVal.str ty), ("text", JVal.str s)]) =
        some (JVal.str m)) ∧
    (∀ u, urlMatchMsg s = some u →
      extractResult P (JVal.obj [("choices", JVal.arr [JVal.obj [("message",
        JVal.obj [("content", JVal.str s)])]])]) = some (JVal.str u)) := by
  have ht := dataUrlMatch_nonempty s m hd
  have hf : stringFound s = some ⟨Kind.dataUrl, m⟩ := by simp [stringFound, hd]
  have hpart : ∀ ty : String,
      extractFromPart (JVal.obj [("type", JVal.str ty), ("text", JVal.str s)]) =
        (stringImageMsg s).map JVal.str := by
    intro ty
    rw [extractFromPart_obj _ (by simp [List.lookup]) (by simp [List.lookup])]
    simp [List.lookup, asString?]
  have hcontent : extractFromMessageContent (some (JVal.str s)) =
      (stringImageMsg s).map JVal.str := by
    unfold extractFromMessageContent stringImageMsg
    simp only [ht, Bool.not_true, Bool.false_eq_true, if_false]
    cases urlMatchMsg s <;> rfl
  refine ⟨?_, ?_, ?_, ?_⟩
  · intro depth hdepth
    unfold deepFindImage
    obtain ⟨k, hk⟩ : ∃ k, 7 - depth = k + 1 := ⟨6 - depth, by omega⟩
    rw [hk]
    exact deepFindImageAux_string P s _ hf k depth hdepth
  · intro u hu
    have e : stringImageMsg s = some u := by simp [stringImageMsg, hu]
    exact ⟨by rw [hcontent, e]; rfl, fun ty => by rw [hpart, e]; rfl⟩
  · intro hu
    have e : stringImageMsg s = some m := by simp [stringImageMsg, hu, hd]
    exact ⟨by rw [hcontent, e]; rfl, fun ty => by rw [hpart, e]; rfl⟩
  · intro u hu
    have e : stringImageMsg s = some u := by simp [stringImageMsg, hu]
    exact extractResult_string_content P s u (by rw [hcontent, e]; rfl)
      (urlMatchMsg_nonempty s u hu)

/-- Witness of C9 on the string with both. -/
theorem string_precedence_witness :
    deepFindImage idlePlatform (JVal.str urlThenDataUri) 0 =
      some ⟨Kind.dataUrl, "data:image/png;base64,AAAA"⟩ ∧
    extractFromMessageContent (some (JVal.str urlThenDataUri)) =
      some (JVal.str "https://cdn.example.com/out.png") :=
  ⟨(string_precedence idlePlatform urlThenDataUri "data:image/png;base64,AAAA"
      (by decide)).1 0 (by decide),
   ((string_precedence idlePlatform urlThenDataUri "data:image/png;base64,AAAA"
      (by decide)).2.1 "https://cdn.example.com/out.png" (by decide)).1⟩

end LessFat
